import Mathlib

/-!
Verification development for the Repo-Visualizer extraction engine.

The embedding follows the Node implementation of the scanner
(`scanProject` and its helpers): ignore-rule evaluation, directory
traversal with the file-count ceiling, dependency/symbol extraction over
the parsed syntax tree, module-path resolution and graph assembly.
File contents are modelled as raw text together with the Babel parse
result (the parser itself is a third-party library, so a file carries
its parsed statement list, `none` standing for a parse failure).  The
`ignore` npm package is modelled by a gitignore-style glob matcher with
last-match-wins negation semantics.  JavaScript strings are modelled as
Lean strings, machine integers as `Nat` with explicit `% 2 ^ 32` where
the hash needs wrap-around.
-/

namespace RepoViz

/-! ### JavaScript string primitives, over character lists -/

def chars (s : String) : List Char := s.data

def ofChars (l : List Char) : String := String.mk l

/-- `pre.isPrefixOf l` on character lists. -/
def isPrefixL : List Char → List Char → Bool
  | [], _ => true
  | _ :: _, [] => false
  | p :: ps, c :: cs => p = c && isPrefixL ps cs

/-- JS `s.startsWith(pre)`. -/
def jsStartsWith (s pre : String) : Bool := isPrefixL (chars pre) (chars s)

/-- JS `s.endsWith(suf)`. -/
def jsEndsWith (s suf : String) : Bool :=
  isPrefixL (chars suf).reverse (chars s).reverse

/-- JS `s.includes(sub)`. -/
def jsIncludes (s sub : String) : Bool :=
  (chars s).tails.any (fun t => isPrefixL (chars sub) t)

/-- JS `s.slice(n)` (drop the first `n` characters). -/
def jsDrop (s : String) (n : Nat) : String := ofChars ((chars s).drop n)

/-- JS `s.slice(0, n)` (keep the first `n` characters). -/
def jsTake (s : String) (n : Nat) : String := ofChars ((chars s).take n)

def splitOnCharAux (c : Char) : List Char → List Char → List (List Char)
  | [], acc => [acc.reverse]
  | x :: xs, acc =>
    if x = c then acc.reverse :: splitOnCharAux c xs []
    else splitOnCharAux c xs (x :: acc)

/-- Split a string at every occurrence of the character `c`. -/
def splitOnChar (c : Char) (s : String) : List String :=
  (splitOnCharAux c (chars s) []).map ofChars

/-- JS `specifier.split(sep)[0]`: the prefix before the first occurrence. -/
def beforeChar (c : Char) (s : String) : String :=
  ofChars ((chars s).takeWhile (fun x => x ≠ c))

def isJsSpace (c : Char) : Bool :=
  c = ' ' || c = '\t' || c = '\n' || c = '\r' || c = '\x0b' || c = '\x0c'

/-- JS `s.trim()` (common whitespace subset). -/
def jsTrim (s : String) : String :=
  ofChars ((((chars s).dropWhile isJsSpace).reverse.dropWhile isJsSpace).reverse)

/-- Split on `/\r?\n/`: split at newlines, dropping a trailing `\r`. -/
def splitLines (s : String) : List String :=
  (splitOnChar '\n' s).map (fun line =>
    if jsEndsWith line "\r" then jsTake line ((chars line).length - 1) else line)

/-! ### POSIX path helpers (`path` module of Node, POSIX flavour) -/

/-- Path segments: split at `/`, dropping empty segments. -/
def splitSegs (p : String) : List String :=
  (splitOnChar '/' p).filter (fun s => s ≠ "")

/-- Normalize segments of an absolute path: `.` is dropped, `..` pops
(and is dropped at the root, as `path.resolve` does for absolute paths). -/
def normAbsSegs (segs : List String) : List String :=
  segs.foldl (fun stack seg =>
    if seg = "." then stack
    else if seg = ".." then stack.dropLast
    else stack ++ [seg]) []

/-- Normalize segments of a relative path: `.` dropped, `..` pops unless
at the head (so leading `..` survive, as `path.posix.join` does). -/
def normRelSegs (segs : List String) : List String :=
  segs.foldl (fun stack seg =>
    if seg = "." then stack
    else if seg = ".." then
      if stack ≠ [] ∧ stack.getLast? ≠ some ".." then stack.dropLast
      else stack ++ [seg]
    else stack ++ [seg]) []

def joinSegsRel (segs : List String) : String := String.intercalate "/" segs

def absOfSegs (segs : List String) : String := "/" ++ joinSegsRel segs

/-- `path.resolve(p)` for an absolute `p`. -/
def resolveAbs (p : String) : String := absOfSegs (normAbsSegs (splitSegs p))

/-- `path.join(base, rel)` / `path.resolve(base, rel)` for an absolute base. -/
def joinAbs (base rel : String) : String :=
  absOfSegs (normAbsSegs (splitSegs base ++ splitSegs rel))

/-- `path.posix.join(a, b)` on relative paths. -/
def posixJoin2 (a b : String) : String :=
  joinSegsRel (normRelSegs (splitSegs a ++ splitSegs b))

/-- `path.posix.join(a, b, c)` on relative paths. -/
def posixJoin3 (a b c : String) : String :=
  joinSegsRel (normRelSegs (splitSegs a ++ splitSegs b ++ splitSegs c))

/-- `path.dirname(p)` for an absolute `p`. -/
def dirnameAbs (p : String) : String := absOfSegs ((splitSegs p).dropLast)

def stripCommon : List String → List String → List String × List String
  | a :: as, b :: bs =>
    if a = b then stripCommon as bs else (a :: as, b :: bs)
  | as, bs => (as, bs)

/-- `path.relative(f, t)` for absolute paths (POSIX). -/
def relativeAbs (f t : String) : String :=
  let p := stripCommon (normAbsSegs (splitSegs f)) (normAbsSegs (splitSegs t))
  joinSegsRel (p.1.map (fun _ => "..") ++ p.2)

/-- `path.posix.basename(p)`. -/
def basenameP (p : String) : String :=
  ((splitOnChar '/' p).getLast?).getD ""

/-- `path.extname(p)` (Node semantics: the suffix from the last dot of the
basename, empty when the only dot is the leading character). -/
def extnameP (p : String) : String :=
  let base := chars (basenameP p)
  let rev := base.reverse
  match rev.span (fun c => c ≠ '.') with
  | (_, []) => ""
  | (sufRev, _ :: beforeRev) =>
    if beforeRev = [] then "" else ofChars ('.' :: sufRev.reverse)

/-! ### Constant tables of the scanner -/

def ALWAYS_IGNORE : List String :=
  [".git/", "node_modules/", ".next/", "dist/", "build/", "out/",
   "coverage/", ".turbo/", ".cache/", ".DS_Store"]

def SCRIPT_EXTENSIONS : List String :=
  [".js", ".jsx", ".ts", ".tsx", ".mjs", ".cjs"]

def STYLE_EXTENSIONS : List String := [".css", ".scss", ".sass"]

def SUPPORTED_EXTENSIONS : List String := SCRIPT_EXTENSIONS ++ STYLE_EXTENSIONS

def IMPORT_EXTENSIONS : List String :=
  [".ts", ".tsx", ".js", ".jsx", ".mjs", ".cjs", ".css", ".scss", ".sass"]

def isSupportedFile (filePath : String) : Bool :=
  SUPPORTED_EXTENSIONS.contains (extnameP filePath)

/-! ### Gitignore pattern normalization (`normalizeGitignorePattern`) -/

def normalizeGitignorePattern (dirRel rawPattern : String) : Option String :=
  let pattern := jsTrim rawPattern
  if pattern = "" ∨ jsStartsWith pattern "#" then none
  else
    let negated := jsStartsWith pattern "!"
    let pattern := if negated then jsDrop pattern 1 else pattern
    if pattern = "" then none
    else
      let anchored := jsStartsWith pattern "/"
      let pattern := if anchored then jsDrop pattern 1 else pattern
      let hasSlash := jsIncludes pattern "/"
      let endsWithSlash := jsEndsWith pattern "/"
      let base := dirRel
      let prefixed :=
        if base ≠ "" then
          if anchored ∨ hasSlash then posixJoin2 base pattern
          else posixJoin3 base "**" pattern
        else if ¬anchored ∧ ¬hasSlash then posixJoin2 "**" pattern
        else pattern
      let prefixed :=
        if endsWithSlash ∧ ¬jsEndsWith prefixed "/" then prefixed ++ "/"
        else prefixed
      some (if negated then "!" ++ prefixed else prefixed)

/-! ### The `ignore` package, modelled: gitignore-style glob matching with
last-match-wins negation.  `*` and `?` never cross a `/`; a `**` segment
matches any number of segments; a pattern also matches every path below a
matched path; a trailing `/` (directory-only marker) is accepted and
matched like the plain pattern. -/

def globSeg : List Char → List Char → Bool
  | [], [] => true
  | '*' :: ps, s => s.tails.any (fun t => globSeg ps t)
  | '?' :: ps, _ :: cs => globSeg ps cs
  | p :: ps, c :: cs => p = c && globSeg ps cs
  | _, _ => false

def globSegs : List (List Char) → List (List Char) → Bool
  | [], _ => true
  | p :: ps, ss =>
    if p = ['*', '*'] then ss.tails.any (fun t => globSegs ps t)
    else
      match ss with
      | [] => false
      | s :: ss2 => globSeg p s && globSegs ps ss2

/-- Does the glob `pat` (one normalized ignore pattern, without the `!`)
match the relative path `p`? -/
def globMatch (pat p : String) : Bool :=
  let pat := if jsEndsWith pat "/" then jsTake pat ((chars pat).length - 1) else pat
  globSegs ((splitOnChar '/' pat).map chars) ((splitSegs p).map chars)

/-- `ignore().add(patterns).ignores(relPath)`: the last matching pattern
decides; a `!` pattern un-ignores. -/
def ignoresPath (patterns : List String) (relPath : String) : Bool :=
  patterns.foldl (fun acc pat =>
    if jsStartsWith pat "!" then
      if globMatch (jsDrop pat 1) relPath then false else acc
    else
      if globMatch pat relPath then true else acc) false

/-! ### Graph data model (`types.ts`) -/

inductive NodeType where
  | route | module | style | external | symbol
deriving DecidableEq, Repr

inductive EdgeType where
  | static | dynamic | style | external | contains
deriving DecidableEq, Repr

/-- The string a template literal produces for an `EdgeType` value. -/
def EdgeType.str : EdgeType → String
  | .static => "static"
  | .dynamic => "dynamic"
  | .style => "style"
  | .external => "external"
  | .contains => "contains"

structure Loc where
  line : Nat
  column : Nat
deriving DecidableEq, Repr

structure GraphNode where
  id : String
  path : String
  label : String
  type : NodeType
  ignored : Option Bool := none
  symbolKind : Option String := none
  parent : Option String := none
  displayName : Option String := none
deriving DecidableEq, Repr

structure GraphEdge where
  id : String
  source : String
  target : String
  type : EdgeType
  statement : Option String := none
  loc : Option Loc := none
deriving DecidableEq, Repr

structure GraphData where
  root : String
  nodes : List GraphNode
  edges : List GraphEdge
  totalFiles : Nat
  ignoredCount : Nat
  externalCount : Nat
deriving DecidableEq, Repr

/-- `nodeTypeFromPath`: route detection via the two route regexes, with the
underscore exception for pages-style paths, then style extensions. -/
def routeEndings : List String :=
  ["page.tsx", "page.ts", "page.jsx", "page.js",
   "route.tsx", "route.ts", "route.jsx", "route.js"]

/-- Tail of the app regex after `app/`: `(.*\/)?(page|route)\.(t|j)sx?$`. -/
def appTailOk (t : String) : Bool :=
  routeEndings.any (fun e => t = e) ||
  routeEndings.any (fun e => jsEndsWith t ("/" ++ e))

def pageExts : List String := [".tsx", ".ts", ".jsx", ".js"]

/-- Tail of the pages regex after `pages/`: `.+\.(t|j)sx?$`. -/
def pagesTailOk (t : String) : Bool :=
  pageExts.any (fun e => jsEndsWith t e && (chars t).length ≥ (chars e).length + 1)

def boundaryScan (tail : String → Bool) (marker : String) : List Char → Bool
  | [] => false
  | c :: rest =>
    (c = '/' && isPrefixL (chars marker) rest &&
      tail (ofChars (rest.drop (chars marker).length))) ||
    boundaryScan tail marker rest

/-- `/(^|\/)app\/(.*\/)?(page|route)\.(t|j)sx?$/.test(s)` -/
def routeRegexApp (s : String) : Bool :=
  (isPrefixL (chars "app/") (chars s) &&
    appTailOk (ofChars ((chars s).drop 4))) ||
  boundaryScan appTailOk "app/" (chars s)

/-- `/(^|\/)pages\/.+\.(t|j)sx?$/.test(s)` -/
def routeRegexPages (s : String) : Bool :=
  (isPrefixL (chars "pages/") (chars s) &&
    pagesTailOk (ofChars ((chars s).drop 6))) ||
  boundaryScan pagesTailOk "pages/" (chars s)

def nodeTypeFromPath (relPath : String) : NodeType :=
  if relPath = "__external__" then .external
  else if routeRegexApp relPath || routeRegexPages relPath then
    if jsIncludes relPath "/pages/" || jsStartsWith relPath "pages/" then
      if jsStartsWith (basenameP relPath) "_" then .module else .route
    else .route
  else if STYLE_EXTENSIONS.contains (extnameP relPath) then .style
  else .module

/-! ### Association lists standing for JS `Map` (insertion order kept,
`set` replaces in place) -/

def aGet {α : Type} : List (String × α) → String → Option α
  | [], _ => none
  | (k, v) :: rest, key => if k = key then some v else aGet rest key

def aSet {α : Type} : List (String × α) → String → α → List (String × α)
  | [], key, v => [(key, v)]
  | (k, w) :: rest, key, v =>
    if k = key then (key, v) :: rest else (k, w) :: aSet rest key v

/-! ### The parsed syntax tree: the statement shapes the extraction
visitors recognize, in traversal (document) order.  Each dependency- or
symbol-bearing node carries the exact source slice `code.slice(start, end)`
as its `statement` and its start location. -/

inductive ModuleName where
  | ident (name : String)
  | strLit (value : String)
deriving DecidableEq, Repr

def moduleNameStr : ModuleName → String
  | .ident n => n
  | .strLit v => v

inductive ImportSpec where
  | defaultSpec (localName : String)
  | namedSpec (imported : ModuleName) (localName : String)
  | namespaceSpec (localName : String)
deriving DecidableEq, Repr

inductive VarTarget where
  | ident (name : String)
  | pattern
deriving DecidableEq, Repr

inductive Decl where
  | functionDecl (id : Option String)
  | classDecl (id : Option String)
  | variableDecl (kind : String) (decls : List VarTarget)
  | tsInterface (id : String)
  | tsTypeAlias (id : String)
  | tsEnum (id : String)
deriving DecidableEq, Repr

inductive ExportSpec where
  | exportSpecifier (exported : ModuleName) (localN : ModuleName)
  | otherSpecifier
deriving DecidableEq, Repr

inductive DefaultDecl where
  | funcD (id : Option String)
  | classD (id : Option String)
  | identD (name : String)
  | exprD
deriving DecidableEq, Repr

inductive Callee where
  | importCallee
  | identCallee (name : String)
  | otherCallee
deriving DecidableEq, Repr

inductive Expr where
  | stringLit (value : String)
  | otherExpr
deriving DecidableEq, Repr

inductive Stmt where
  | topDecl (d : Decl)
  | nestedDecl (d : Decl)
  | importDecl (source : String) (specifiers : List ImportSpec)
      (statement : String) (loc : Option Loc)
  | exportAllDecl (source : Option String) (statement : String) (loc : Option Loc)
  | exportNamedDecl (declaration : Option Decl) (specifiers : List ExportSpec)
      (source : Option String) (statement : String) (loc : Option Loc)
  | exportDefaultDecl (declaration : DefaultDecl)
  | callStmt (callee : Callee) (args : List Expr)
      (statement : String) (loc : Option Loc)
  | otherStmt
deriving DecidableEq, Repr

/-- A file as the scanner sees it: its raw text and its Babel parse
result (`none` when parsing throws). -/
structure FileData where
  text : String
  ast : Option (List Stmt)
deriving DecidableEq, Repr

/-! ### Dependency / symbol records (extractor output) -/

inductive BindKind where
  | default | named | namespaceK
deriving DecidableEq, Repr

structure ImportBinding where
  kind : BindKind
  imported : String
  localName : String
deriving DecidableEq, Repr

structure Dependency where
  specifier : String
  type : EdgeType
  statement : Option String := none
  loc : Option Loc := none
  imports : Option (List ImportBinding) := none
deriving DecidableEq, Repr

structure SymbolInfo where
  name : String
  kind : String
  displayName : Option String := none
deriving DecidableEq, Repr

/-! ### `extractDependencies` -/

def importBindings (specs : List ImportSpec) : List ImportBinding :=
  specs.map fun s =>
    match s with
    | .defaultSpec l => ⟨.default, "default", l⟩
    | .namedSpec imp l => ⟨.named, moduleNameStr imp, l⟩
    | .namespaceSpec l => ⟨.namespaceK, "*", l⟩

def depsOfStmt : Stmt → List Dependency
  | .importDecl src specs stmt loc =>
    let imports := importBindings specs
    [{ specifier := src, type := .static, statement := some stmt, loc := loc,
       imports := if imports.length ≠ 0 then some imports else none }]
  | .exportAllDecl (some src) stmt loc =>
    [{ specifier := src, type := .static, statement := some stmt, loc := loc }]
  | .exportAllDecl none _ _ => []
  | .exportNamedDecl _ _ (some src) stmt loc =>
    [{ specifier := src, type := .static, statement := some stmt, loc := loc }]
  | .callStmt .importCallee args stmt loc =>
    (match args.head? with
     | some (.stringLit v) =>
       [{ specifier := v, type := .dynamic, statement := some stmt, loc := loc }]
     | _ => [])
  | .callStmt (.identCallee n) args stmt loc =>
    if n = "require" then
      match args.head? with
      | some (.stringLit v) =>
        [{ specifier := v, type := .static, statement := some stmt, loc := loc }]
      | _ => []
    else []
  | _ => []

def styleQuoteChar (c : Char) : Bool := c = '\'' || c = '"'

/-- One attempt of `/@import\s+(?:url\()?['"]([^'"]+)['"]/` at the head of
`l`; on success returns the captured specifier, the whole match and the
rest of the input after the match. -/
def matchStyleImportAt (l : List Char) : Option (List Char × List Char × List Char) :=
  if isPrefixL (chars "@import") l then
    let r1 := l.drop 7
    let ws := r1.takeWhile isJsSpace
    if ws = [] then none
    else
      let r2 := r1.drop ws.length
      let hasUrl := isPrefixL (chars "url(") r2
      let r3 := if hasUrl then r2.drop 4 else r2
      match r3 with
      | [] => none
      | q :: r4 =>
        if styleQuoteChar q then
          let body := r4.takeWhile (fun c => ¬styleQuoteChar c)
          let r5 := r4.drop body.length
          if body = [] then none
          else
            match r5 with
            | [] => none
            | q2 :: r6 =>
              if styleQuoteChar q2 then
                some (body,
                  (chars "@import") ++ ws ++ (if hasUrl then chars "url(" else []) ++
                    [q] ++ body ++ [q2],
                  r6)
              else none
        else none
  else none

def styleScanAux : Nat → List Char → List Dependency
  | 0, _ => []
  | _, [] => []
  | fuel + 1, c :: rest =>
    match matchStyleImportAt (c :: rest) with
    | some (spec, stmt, after) =>
      { specifier := ofChars spec, type := .style, statement := some (ofChars stmt)
        : Dependency } :: styleScanAux fuel after
    | none => styleScanAux fuel rest

/-- The `@import` scan over a style file's text. -/
def styleScan (code : String) : List Dependency :=
  styleScanAux (chars code).length (chars code)

def extractDependencies (filePath : String) (fd : FileData) : List Dependency :=
  (if SCRIPT_EXTENSIONS.contains (extnameP filePath) then
    match fd.ast with
    | none => []
    | some stmts => (stmts.map depsOfStmt).flatten
   else []) ++
  (if STYLE_EXTENSIONS.contains (extnameP filePath) then styleScan fd.text else [])

/-! ### `extractSymbols` -/

def localKindsOfStmt (m : List (String × String)) : Stmt → List (String × String)
  | .topDecl d =>
    match d with
    | .functionDecl (some id) => aSet m id "function"
    | .functionDecl none => m
    | .classDecl (some id) => aSet m id "class"
    | .classDecl none => m
    | .variableDecl kind decls =>
      decls.foldl (fun acc t =>
        match t with
        | .ident n => aSet acc n kind
        | .pattern => acc) m
    | .tsInterface id => aSet m id "interface"
    | .tsTypeAlias id => aSet m id "type"
    | .tsEnum id => aSet m id "enum"
  | _ => m

structure SymAcc where
  seen : List String
  symbols : List SymbolInfo
deriving DecidableEq, Repr

def addSymbol (acc : SymAcc) (s : SymbolInfo) : SymAcc :=
  if acc.seen.contains s.name then acc
  else ⟨acc.seen ++ [s.name], acc.symbols ++ [s]⟩

def symbolsOfStmt (localKinds : List (String × String)) (acc : SymAcc) :
    Stmt → SymAcc
  | .exportNamedDecl (some d) _ _ _ _ =>
    (match d with
     | .functionDecl (some id) => addSymbol acc ⟨id, "function", none⟩
     | .functionDecl none => acc
     | .classDecl (some id) => addSymbol acc ⟨id, "class", none⟩
     | .classDecl none => acc
     | .variableDecl kind decls =>
       decls.foldl (fun a t =>
         match t with
         | .ident n => addSymbol a ⟨n, kind, none⟩
         | .pattern => a) acc
     | .tsInterface id => addSymbol acc ⟨id, "interface", none⟩
     | .tsTypeAlias id => addSymbol acc ⟨id, "type", none⟩
     | .tsEnum id => addSymbol acc ⟨id, "enum", none⟩)
  | .exportNamedDecl none specs _ _ _ =>
    specs.foldl (fun a sp =>
      match sp with
      | .exportSpecifier exported localN =>
        addSymbol a ⟨moduleNameStr exported,
          (aGet localKinds (moduleNameStr localN)).getD "export", none⟩
      | .otherSpecifier => a) acc
  | .exportDefaultDecl d =>
    (match d with
     | .funcD id => addSymbol acc ⟨"default", "function", id⟩
     | .classD id => addSymbol acc ⟨"default", "class", id⟩
     | .identD n =>
       addSymbol acc ⟨"default", (aGet localKinds n).getD "export", some n⟩
     | .exprD => addSymbol acc ⟨"default", "export", none⟩)
  | _ => acc

def extractSymbols (filePath : String) (fd : FileData) : List SymbolInfo :=
  if SCRIPT_EXTENSIONS.contains (extnameP filePath) then
    match fd.ast with
    | none => []
    | some stmts =>
      let localKinds := stmts.foldl localKindsOfStmt []
      (stmts.foldl (symbolsOfStmt localKinds) ⟨[], []⟩).symbols
  else []

/-! ### The machine filesystem: a tree of named entries, looked up by
absolute POSIX path -/

inductive FSTree where
  | file (name : String) (data : FileData)
  | dir (name : String) (children : List FSTree)

abbrev Machine := List FSTree

def entryName : FSTree → String
  | .file n _ => n
  | .dir n _ => n

def entryAtAux : List String → List FSTree → Option FSTree
  | [], _ => none
  | [n], es => es.find? (fun e => entryName e = n)
  | n :: rest, es =>
    match es.find? (fun e => entryName e = n) with
    | some (.dir _ ch) => entryAtAux rest ch
    | _ => none

inductive StatK where
  | fileK | dirK
deriving DecidableEq, Repr

/-- `fs.stat(p)`, as far as the scanner consumes it. -/
def statAt (m : Machine) (p : String) : Option StatK :=
  match normAbsSegs (splitSegs p) with
  | [] => some .dirK
  | segs =>
    match entryAtAux segs m with
    | some (.file _ _) => some .fileK
    | some (.dir _ _) => some .dirK
    | none => none

def statIsFile (m : Machine) (p : String) : Bool :=
  match statAt m p with
  | some .fileK => true
  | _ => false

def statIsDir (m : Machine) (p : String) : Bool :=
  match statAt m p with
  | some .dirK => true
  | _ => false

def childrenAt (m : Machine) (p : String) : Option (List FSTree) :=
  match normAbsSegs (splitSegs p) with
  | [] => some m
  | segs =>
    match entryAtAux segs m with
    | some (.dir _ ch) => some ch
    | _ => none

/-- `fs.readFile(p)`. -/
def readData (m : Machine) (p : String) : Option FileData :=
  match normAbsSegs (splitSegs p) with
  | [] => none
  | segs =>
    match entryAtAux segs m with
    | some (.file _ d) => some d
    | _ => none

/-! ### `resolveImport` / `resolveWithExtensions` (Node implementation) -/

structure Resolved where
  external : Bool
  resolved : Option String
deriving DecidableEq, Repr

def firstIndexHit (m : Machine) (basePath : String) : List String → Option String
  | [] => none
  | ext :: rest =>
    let indexPath := joinAbs basePath ("index" ++ ext)
    if statIsFile m indexPath then some indexPath
    else firstIndexHit m basePath rest

def firstExtHit (m : Machine) (basePath : String) : List String → Option String
  | [] => none
  | ext :: rest =>
    let filePath := basePath ++ ext
    if statIsFile m filePath then some filePath
    else firstExtHit m basePath rest

def resolveWithExtensions (m : Machine) (basePath : Option String) : Option String :=
  match basePath with
  | none => none
  | some bp =>
    if statIsFile m bp then some bp
    else
      match (if statIsDir m bp then firstIndexHit m bp IMPORT_EXTENSIONS else none) with
      | some r => some r
      | none =>
        if extnameP bp = "" then firstExtHit m bp IMPORT_EXTENSIONS
        else none

def resolveImport (m : Machine) (root fromFile specifier : String) : Option Resolved :=
  if specifier = "" ∨ jsStartsWith specifier "http" then none
  else
    let cleanSpecifier := beforeChar '#' (beforeChar '?' specifier)
    let targetPath : Option String :=
      if jsStartsWith cleanSpecifier "@/" then
        some (joinAbs root (jsDrop cleanSpecifier 2))
      else if jsStartsWith cleanSpecifier "/" then
        some (joinAbs root (jsDrop cleanSpecifier 1))
      else if jsStartsWith cleanSpecifier "." then
        some (joinAbs (dirnameAbs fromFile) cleanSpecifier)
      else none
    match targetPath with
    | none => some ⟨true, none⟩
    | some tp =>
      match resolveWithExtensions m (some tp) with
      | none => some ⟨true, none⟩
      | some resolved =>
        if ¬jsStartsWith resolved root then some ⟨true, none⟩
        else some ⟨false, some resolved⟩

/-! ### `hashId`: SHA-1 of the dedup key, as a 40-digit hex string -/

def m32 (n : Nat) : Nat := n % 4294967296

def not32 (n : Nat) : Nat := 4294967295 - n

def rotl32 (x s : Nat) : Nat := m32 (x * 2 ^ s) + x / 2 ^ (32 - s)

def utf8Char (c : Char) : List Nat :=
  let n := c.toNat
  if n < 128 then [n]
  else if n < 2048 then [192 + n / 64, 128 + n % 64]
  else if n < 65536 then [224 + n / 4096, 128 + n / 64 % 64, 128 + n % 64]
  else [240 + n / 262144, 128 + n / 4096 % 64, 128 + n / 64 % 64, 128 + n % 64]

def utf8Bytes (s : String) : List Nat :=
  (chars s).foldr (fun c acc => utf8Char c ++ acc) []

def sha1Pad (msg : List Nat) : List Nat :=
  let len := msg.length
  let k := (119 - len % 64) % 64
  let bl := len * 8
  msg ++ [128] ++ List.replicate k 0 ++
    [bl / 2 ^ 56 % 256, bl / 2 ^ 48 % 256, bl / 2 ^ 40 % 256, bl / 2 ^ 32 % 256,
     bl / 2 ^ 24 % 256, bl / 2 ^ 16 % 256, bl / 2 ^ 8 % 256, bl % 256]

def chunks64 : Nat → List Nat → List (List Nat)
  | 0, _ => []
  | _, [] => []
  | fuel + 1, l => l.take 64 :: chunks64 fuel (l.drop 64)

def words4 : List Nat → List Nat
  | a :: b :: c :: d :: rest =>
    (a * 16777216 + b * 65536 + c * 256 + d) :: words4 rest
  | _ => []

def sha1ExtendStep (w : List Nat) : List Nat :=
  let n := w.length
  let g (k : Nat) : Nat := w.getD (n - k) 0
  w ++ [rotl32 ((g 3) ^^^ (g 8) ^^^ (g 14) ^^^ (g 16)) 1]

def sha1ExtendN : Nat → List Nat → List Nat
  | 0, w => w
  | k + 1, w => sha1ExtendN k (sha1ExtendStep w)

def sha1Rounds : List Nat → Nat → Nat × Nat × Nat × Nat × Nat →
    Nat × Nat × Nat × Nat × Nat
  | [], _, st => st
  | wi :: rest, i, (a, b, c, d, e) =>
    let f :=
      if i < 20 then (b &&& c) ||| (not32 b &&& d)
      else if i < 40 then b ^^^ c ^^^ d
      else if i < 60 then (b &&& c) ||| (b &&& d) ||| (c &&& d)
      else b ^^^ c ^^^ d
    let k :=
      if i < 20 then 1518500249
      else if i < 40 then 1859775393
      else if i < 60 then 2400959708
      else 3395469782
    let temp := m32 (rotl32 a 5 + f + e + k + wi)
    sha1Rounds rest (i + 1) (temp, a, rotl32 b 30, c, d)

def sha1Chunk (h : Nat × Nat × Nat × Nat × Nat) (chunk : List Nat) :
    Nat × Nat × Nat × Nat × Nat :=
  let w := sha1ExtendN 64 (words4 chunk)
  let (h0, h1, h2, h3, h4) := h
  let (a, b, c, d, e) := sha1Rounds w 0 (h0, h1, h2, h3, h4)
  (m32 (h0 + a), m32 (h1 + b), m32 (h2 + c), m32 (h3 + d), m32 (h4 + e))

def hexDigit (n : Nat) : Char :=
  if n < 10 then Char.ofNat (48 + n) else Char.ofNat (87 + n)

def hex8 (x : Nat) : List Char :=
  (List.range 8).map (fun i => hexDigit (x / 2 ^ (28 - 4 * i) % 16))

def hashId (value : String) : String :=
  let msg := sha1Pad (utf8Bytes value)
  let cs := chunks64 (msg.length + 1) msg
  let (h0, h1, h2, h3, h4) :=
    cs.foldl sha1Chunk (1732584193, 4023233417, 2562383102, 271733878, 3285377520)
  ofChars (hex8 h0 ++ hex8 h1 ++ hex8 h2 ++ hex8 h3 ++ hex8 h4)

/-! ### `scanProject`: traversal, symbol phase and graph assembly -/

inductive ScanGranularity where
  | file | symbol
deriving DecidableEq, Repr

structure ScanOptions where
  root : String
  maxFiles : Nat
  includeExternal : Bool
  granularity : Option ScanGranularity := none
deriving DecidableEq, Repr

/-- The accumulating structures of one extraction pass (the closure-scoped
`nodes`, `edges`, `edgeKeys`, `ignoredNodes`, `filesToParse` and counters). -/
structure ScanSt where
  nodes : List GraphNode := []
  edges : List GraphEdge := []
  edgeKeys : List String := []
  ignoredNodes : List GraphNode := []
  filesToParse : List String := []
  totalFiles : Nat := 0
  ignoredCount : Nat := 0
  externalCount : Nat := 0
deriving DecidableEq, Repr

def nodesHas (ns : List GraphNode) (id : String) : Bool :=
  ns.any (fun n => n.id = id)

/-- JS `Map.set` keyed by node id: replace in place, else append. -/
def nodesSet : List GraphNode → GraphNode → List GraphNode
  | [], n => [n]
  | x :: xs, n => if x.id = n.id then n :: xs else x :: nodesSet xs n

def gitignoreText (entries : List FSTree) : Option String :=
  match entries.find? (fun e => entryName e = ".gitignore") with
  | some (.file _ d) => some d.text
  | _ => none

def combinedPatternsFor (relDir : String) (patterns : List String)
    (entries : List FSTree) : List String :=
  match gitignoreText entries with
  | none => patterns
  | some content =>
    if content = "" then patterns
    else
      patterns ++ (splitLines content).filterMap (normalizeGitignorePattern relDir)

def relJoin (relDir name : String) : String :=
  if relDir = "" then name else relDir ++ "/" ++ name

def capacityMsg (maxFiles : Nat) : String :=
  "File limit exceeded (" ++ toString maxFiles ++
    "). Adjust the max files setting to continue."

def inputErrMsg : String := "Selected path is not a readable directory."

mutual

/-- The `walk` recursion: `walkEntry` is the loop body for one directory
entry, `walkEntries` iterates a directory's entry list.  `pats` is the
combined pattern list of the directory being listed; descending into a
subdirectory extends it with that directory's own ignore file. -/
def walkEntry (maxFiles : Nat) (root : String) :
    FSTree → String → List String → ScanSt → Except String ScanSt
  | .dir name ch, relDir, pats, st =>
    let relPath := relJoin relDir name
    if relPath = "" then .ok st
    else if ignoresPath pats relPath then
      .ok { st with ignoredCount := st.ignoredCount + 1 }
    else
      walkEntries maxFiles root ch relPath
        (combinedPatternsFor relPath pats ch) st
  | .file name _, relDir, pats, st =>
    let relPath := relJoin relDir name
    if relPath = "" then .ok st
    else if ignoresPath pats relPath then
      let st := { st with ignoredCount := st.ignoredCount + 1 }
      if isSupportedFile relPath then
        .ok { st with ignoredNodes := st.ignoredNodes ++
          [{ id := relPath, path := relPath, label := basenameP relPath,
             type := nodeTypeFromPath relPath, ignored := some true }] }
      else .ok st
    else
      let totalFiles := st.totalFiles + 1
      if totalFiles > maxFiles then .error (capacityMsg maxFiles)
      else
        let st := { st with totalFiles := totalFiles }
        if ¬isSupportedFile relPath then .ok st
        else
          .ok { st with
            nodes := nodesSet st.nodes
              { id := relPath, path := relPath, label := basenameP relPath,
                type := nodeTypeFromPath relPath },
            filesToParse := st.filesToParse ++ [joinAbs root relPath] }

def walkEntries (maxFiles : Nat) (root : String) :
    List FSTree → String → List String → ScanSt → Except String ScanSt
  | [], _, _, st => .ok st
  | e :: rest, relDir, pats, st =>
    match walkEntry maxFiles root e relDir pats st with
    | .error msg => .error msg
    | .ok st2 => walkEntries maxFiles root rest relDir pats st2

end

abbrev SymbolMap := List (String × List (String × SymbolInfo))

def symbolNodeFor (relPath symbolId : String) (s : SymbolInfo) : GraphNode :=
  { id := symbolId, path := relPath ++ "#" ++ s.name, label := s.name,
    type := .symbol, symbolKind := some s.kind, parent := some relPath,
    displayName := s.displayName }

def addSymbolEntry (relPath : String) (acc : ScanSt × List (String × SymbolInfo))
    (s : SymbolInfo) : ScanSt × List (String × SymbolInfo) :=
  let (st, entry) := acc
  let symbolId := relPath ++ "::" ++ s.name
  let entry := aSet entry s.name s
  let st :=
    if nodesHas st.nodes symbolId then st
    else { st with nodes := nodesSet st.nodes (symbolNodeFor relPath symbolId s) }
  let containsKey := relPath ++ "|" ++ symbolId ++ "|contains"
  if st.edgeKeys.contains containsKey then (st, entry)
  else
    ({ st with
        edgeKeys := st.edgeKeys ++ [containsKey],
        edges := st.edges ++
          [{ id := hashId containsKey, source := relPath, target := symbolId,
             type := .contains }] }, entry)

def symbolPhaseFile (m : Machine) (root : String) (acc : ScanSt × SymbolMap)
    (fullPath : String) : ScanSt × SymbolMap :=
  let (st, smap) := acc
  let relPath := relativeAbs root fullPath
  match readData m fullPath with
  | none => (st, smap)
  | some fd =>
    if fd.text = "" then (st, smap)
    else
      let symbols := extractSymbols fullPath fd
      if symbols.length = 0 then (st, smap)
      else
        let p := symbols.foldl (addSymbolEntry relPath) (st, [])
        (p.1, aSet smap relPath p.2)

def symbolPhase (m : Machine) (root : String) (files : List String)
    (st : ScanSt) : ScanSt × SymbolMap :=
  files.foldl (symbolPhaseFile m root) (st, [])

def externalNode : GraphNode :=
  { id := "__external__", path := "__external__", label := "External",
    type := .external }

def slice200 (s : String) : String := jsTake s 200

def retargetFold (relPath targetRel : String) (dep : Dependency)
    (tsyms : List (String × SymbolInfo)) :
    ScanSt → Bool → List ImportBinding → ScanSt × Bool
  | st, created, [] => (st, created)
  | st, created, b :: bs =>
    if b.kind = .namespaceK then
      retargetFold relPath targetRel dep tsyms st created bs
    else
      let importName := if b.kind = .default then "default" else b.imported
      match aGet tsyms importName with
      | none => retargetFold relPath targetRel dep tsyms st created bs
      | some _ =>
        let symbolId := targetRel ++ "::" ++ importName
        let edgeKey := relPath ++ "|" ++ symbolId ++ "|" ++ dep.type.str ++
          "|" ++ dep.statement.getD ""
        if st.edgeKeys.contains edgeKey then
          retargetFold relPath targetRel dep tsyms st created bs
        else
          retargetFold relPath targetRel dep tsyms
            { st with
                edgeKeys := st.edgeKeys ++ [edgeKey],
                edges := st.edges ++
                  [{ id := hashId edgeKey, source := relPath, target := symbolId,
                     type := dep.type, statement := dep.statement.map slice200,
                     loc := dep.loc }] }
            true bs

def fileLevelEdge (relPath targetRel : String) (dep : Dependency)
    (st : ScanSt) : ScanSt :=
  let targetExt := extnameP targetRel
  let edgeType := if STYLE_EXTENSIONS.contains targetExt then EdgeType.style else dep.type
  let edgeKey := relPath ++ "|" ++ targetRel ++ "|" ++ edgeType.str ++ "|" ++
    dep.statement.getD ""
  if st.edgeKeys.contains edgeKey then st
  else
    { st with
        edgeKeys := st.edgeKeys ++ [edgeKey],
        edges := st.edges ++
          [{ id := hashId edgeKey, source := relPath, target := targetRel,
             type := edgeType, statement := dep.statement.map slice200,
             loc := dep.loc }] }

/-- The body of the dependency loop for a single dependency record. -/
def processDep (m : Machine) (root : String) (granularity : ScanGranularity)
    (includeExternal : Bool) (smap : SymbolMap) (relPath fullPath : String)
    (st : ScanSt) (dep : Dependency) : ScanSt :=
  match resolveImport m root fullPath dep.specifier with
  | none => st
  | some r =>
    if r.external then
      let st := { st with externalCount := st.externalCount + 1 }
      if ¬includeExternal then st
      else
        let st :=
          if nodesHas st.nodes "__external__" then st
          else { st with nodes := nodesSet st.nodes externalNode }
        let edgeKey := relPath ++ "|__external__|external|" ++ dep.specifier
        if st.edgeKeys.contains edgeKey then st
        else
          { st with
              edgeKeys := st.edgeKeys ++ [edgeKey],
              edges := st.edges ++
                [{ id := hashId edgeKey, source := relPath, target := "__external__",
                   type := .external, statement := dep.statement, loc := dep.loc }] }
    else
      match r.resolved with
      | none => st
      | some rp =>
        let targetRel := relativeAbs root rp
        let st :=
          if nodesHas st.nodes targetRel then st
          else
            { st with
                nodes := nodesSet st.nodes
                  { id := targetRel, path := targetRel,
                    label := basenameP targetRel,
                    type := nodeTypeFromPath targetRel } }
        match granularity, dep.imports with
        | .symbol, some binds =>
          if binds.length ≠ 0 then
            let p :=
              match aGet smap targetRel with
              | some tsyms => retargetFold relPath targetRel dep tsyms st false binds
              | none => (st, false)
            if p.2 then p.1 else fileLevelEdge relPath targetRel dep p.1
          else fileLevelEdge relPath targetRel dep st
        | _, _ => fileLevelEdge relPath targetRel dep st

def depPhaseFile (m : Machine) (root : String) (granularity : ScanGranularity)
    (includeExternal : Bool) (smap : SymbolMap) (st : ScanSt)
    (fullPath : String) : ScanSt :=
  let relPath := relativeAbs root fullPath
  match readData m fullPath with
  | none => st
  | some fd =>
    if fd.text = "" then st
    else
      (extractDependencies fullPath fd).foldl
        (processDep m root granularity includeExternal smap relPath fullPath) st

def depPhase (m : Machine) (root : String) (granularity : ScanGranularity)
    (includeExternal : Bool) (smap : SymbolMap) (files : List String)
    (st : ScanSt) : ScanSt :=
  files.foldl (depPhaseFile m root granularity includeExternal smap) st

/-- Folding the recorded ignored nodes into the node map after the walk. -/
def foldIgnored (st : ScanSt) : ScanSt :=
  st.ignoredNodes.foldl (fun s n => { s with nodes := nodesSet s.nodes n }) st

/-- The symbol collection pass (run only in symbol granularity). -/
def phasePair (m : Machine) (root : String) (granularity : ScanGranularity)
    (st2 : ScanSt) : ScanSt × SymbolMap :=
  if granularity = .symbol then symbolPhase m root st2.filesToParse st2
  else (st2, [])

/-- Everything after a successful walk: fold ignored nodes, collect
symbols, then process dependencies. -/
def scanTail (m : Machine) (root : String) (granularity : ScanGranularity)
    (includeExternal : Bool) (st1 : ScanSt) : ScanSt :=
  depPhase m root granularity includeExternal
    (phasePair m root granularity (foldIgnored st1)).2
    (foldIgnored st1).filesToParse
    (phasePair m root granularity (foldIgnored st1)).1

/-- The whole extraction pass, returning the final accumulator state
(`scanProject` is its projection to `GraphData`). -/
def scanState (m : Machine) (options : ScanOptions) :
    Except String (String × ScanSt) :=
  if ¬statIsDir m (resolveAbs options.root) then .error inputErrMsg
  else
    match walkEntries options.maxFiles (resolveAbs options.root)
        ((childrenAt m (resolveAbs options.root)).getD []) ""
        (combinedPatternsFor "" ALWAYS_IGNORE
          ((childrenAt m (resolveAbs options.root)).getD [])) {} with
    | .error e => .error e
    | .ok st1 =>
      .ok (resolveAbs options.root,
        scanTail m (resolveAbs options.root) (options.granularity.getD .file)
          options.includeExternal st1)

def scanProject (m : Machine) (options : ScanOptions) : Except String GraphData :=
  (scanState m options).map (fun p =>
    { root := p.1, nodes := p.2.nodes, edges := p.2.edges,
      totalFiles := p.2.totalFiles, ignoredCount := p.2.ignoredCount,
      externalCount := p.2.externalCount })

/-! ### Concrete scan scenarios used by the test-property claims -/

/-- `a.ts` containing `import "./b"` (a side-effect import, no bindings). -/
def c7Afd : FileData :=
  { text := "import \"./b\"",
    ast := some [.importDecl "./b" [] "import \"./b\"" (some ⟨1, 0⟩)] }

/-- `b.ts` containing `export const x = 1`. -/
def c7Bfd : FileData :=
  { text := "export const x = 1",
    ast := some [.exportNamedDecl (some (.variableDecl "const" [.ident "x"])) []
      none "export const x = 1" (some ⟨1, 0⟩)] }

/-- A `.gitignore` whose content is `b.ts`. -/
def c7Gitignore : FileData := { text := "b.ts", ast := none }

def c7Machine : Machine :=
  [.dir "repo"
    [.file "a.ts" c7Afd, .file "b.ts" c7Bfd, .file ".gitignore" c7Gitignore]]

def c7Options : ScanOptions :=
  { root := "/repo", maxFiles := 100, includeExternal := false }

/-- The expected outcome of the `.gitignore` scenario: `a.ts` typed module,
`b.ts` typed module and flagged ignored, exactly one static edge
`a.ts -> b.ts`, no other edge, and `ignoredCount = 1`. -/
def c7Check : Bool :=
  match scanProject c7Machine c7Options with
  | .ok g =>
    g.nodes.any (fun n => n.id = "a.ts" && n.type = .module && n.ignored = none) &&
    g.nodes.any (fun n => n.id = "b.ts" && n.type = .module && n.ignored = some true) &&
    (g.edges.filter (fun e =>
      e.source = "a.ts" && e.target = "b.ts" && e.type = .static)).length = 1 &&
    g.edges.length = 1 &&
    g.ignoredCount = 1
  | .error _ => false

/-- `a.ts` containing `import { foo } from "./b"`. -/
def c6Afd : FileData :=
  { text := "import \x7b foo \x7d from \"./b\"",
    ast := some [.importDecl "./b" [.namedSpec (.ident "foo") "foo"]
      "import \x7b foo \x7d from \"./b\"" (some ⟨1, 0⟩)] }

/-- `b.ts` containing `export function foo() {}`. -/
def c6Bfd : FileData :=
  { text := "export function foo() \x7b\x7d",
    ast := some [.exportNamedDecl (some (.functionDecl (some "foo"))) [] none
      "export function foo() \x7b\x7d" (some ⟨1, 0⟩)] }

/-- `c.ts` containing `import { bar } from "./b"` where `b.ts` exports no
`bar`. -/
def c6Cfd : FileData :=
  { text := "import \x7b bar \x7d from \"./b\"",
    ast := some [.importDecl "./b" [.namedSpec (.ident "bar") "bar"]
      "import \x7b bar \x7d from \"./b\"" (some ⟨1, 0⟩)] }

def c6Machine : Machine :=
  [.dir "repo" [.file "a.ts" c6Afd, .file "b.ts" c6Bfd, .file "c.ts" c6Cfd]]

def c6Options : ScanOptions :=
  { root := "/repo", maxFiles := 100, includeExternal := false,
    granularity := some .symbol }

/-- Symbol-mode expectations: the matched import is retargeted onto
`b.ts::foo` with no file-level edge for it; the unmatched import falls
back to a file-level edge with no symbol edge. -/
def c6Check : Bool :=
  match scanProject c6Machine c6Options with
  | .ok g =>
    (g.edges.filter (fun e =>
      e.source = "a.ts" && e.target = "b.ts::foo" && e.type = .static)).length = 1 &&
    (g.edges.filter (fun e => e.source = "a.ts" && e.target = "b.ts")).length = 0 &&
    (g.edges.filter (fun e =>
      e.source = "c.ts" && e.target = "b.ts" && e.type = .static)).length = 1 &&
    (g.edges.filter (fun e => e.source = "c.ts" && e.target = "b.ts::bar")).length = 0 &&
    g.nodes.any (fun n => n.id = "b.ts::foo" && n.type = .symbol) &&
    (g.edges.filter (fun e =>
      e.source = "b.ts" && e.target = "b.ts::foo" && e.type = .contains)).length = 1
  | .error _ => false

/-- A machine where both `a/x.ts` and `a/x/index.ts` exist. -/
def c4Machine : Machine :=
  [.dir "repo" [.dir "a"
    [.file "b.ts" ⟨"import \"./x\"", some [.importDecl "./x" []
      "import \"./x\"" (some ⟨1, 0⟩)]⟩,
     .file "x.ts" ⟨"", none⟩,
     .dir "x" [.file "index.ts" ⟨"", none⟩]]]]

/-- A machine with a sibling directory `/repo-x` of the root `/repo` whose
absolute path extends the root as a string prefix. -/
def c5Machine : Machine :=
  [.dir "repo" [.file "a.ts" ⟨"import \"../repo-x/b.ts\"",
     some [.importDecl "../repo-x/b.ts" [] "import \"../repo-x/b.ts\""
       (some ⟨1, 0⟩)]⟩],
   .dir "repo-x" [.file "b.ts" ⟨"", none⟩]]

def c5Options : ScanOptions :=
  { root := "/repo", maxFiles := 100, includeExternal := false }

/-- The scan of `c5Machine` produces an in-tree edge whose target path
steps outside the root. -/
def c5Check : Bool :=
  match scanProject c5Machine c5Options with
  | .ok g =>
    (g.edges.filter (fun e =>
      e.source = "a.ts" && e.target = "../repo-x/b.ts" && e.type = .static)).length = 1 &&
    g.externalCount = 0
  | .error _ => false

/-- Four eligible files under the root, for the capacity scenario. -/
def c3Machine : Machine :=
  [.dir "repo"
    [.file "a.ts" ⟨"", none⟩, .file "b.ts" ⟨"", none⟩,
     .file "c.ts" ⟨"", none⟩, .file "d.ts" ⟨"", none⟩]]

def c3Options : ScanOptions :=
  { root := "/repo", maxFiles := 3, includeExternal := false }

/-- `a.ts` importing first the bare package `react`, then the extensionless
in-tree file `__external__`. -/
def c10Afd : FileData :=
  { text := "import \"react\"\nimport \"./__external__\"",
    ast := some
      [.importDecl "react" [] "import \"react\"" (some ⟨1, 0⟩),
       .importDecl "./__external__" [] "import \"./__external__\"" (some ⟨2, 0⟩)] }

def c10Machine : Machine :=
  [.dir "repo" [.file "a.ts" c10Afd, .file "__external__" ⟨"", none⟩]]

def c10OptionsT : ScanOptions :=
  { root := "/repo", maxFiles := 100, includeExternal := true }

def c10OptionsF : ScanOptions :=
  { root := "/repo", maxFiles := 100, includeExternal := false }

/-- With externals hidden, the scan of `c10Machine` keeps a node with id
`__external__` that the externals-shown run does not contain at all (the
labels differ), so the node sets do not differ merely by the sentinel. -/
def c10CexCheck : Bool :=
  match scanProject c10Machine c10OptionsT, scanProject c10Machine c10OptionsF with
  | .ok gT, .ok gF => gF.nodes.any (fun n => !(gT.nodes.contains n))
  | _, _ => false

/-- A clean machine with one external dependency, for the witness of the
amended include-external claim. -/
def c10WMachine : Machine :=
  [.dir "repo" [.file "a.ts" ⟨"import \"react\"",
    some [.importDecl "react" [] "import \"react\"" (some ⟨1, 0⟩)]⟩]]

/-- A two-import file whose statements agree on their first 200 characters
but differ afterwards; both resolve to `b.ts`. -/
def c1LongA : String :=
  ofChars (chars "import " ++ List.replicate 193 'z' ++ chars " from \"./b\"")

def c1LongB : String :=
  ofChars (chars "import " ++ List.replicate 193 'z' ++ chars "y from \"./b\"")

def c1Afd : FileData :=
  { text := c1LongA ++ "\n" ++ c1LongB,
    ast := some
      [.importDecl "./b" [.defaultSpec (ofChars (List.replicate 193 'z'))]
        c1LongA (some ⟨1, 0⟩),
       .importDecl "./b" [.defaultSpec (ofChars (List.replicate 193 'z' ++ ['y']))]
        c1LongB (some ⟨2, 0⟩)] }

def c1Machine : Machine :=
  [.dir "repo" [.file "a.ts" c1Afd, .file "b.ts" ⟨"", none⟩]]

def c1Options : ScanOptions :=
  { root := "/repo", maxFiles := 100, includeExternal := false }

/-- Two distinct edges agreeing on source, target, type and (stored,
truncated) statement. -/
def c1CexCheck : Bool :=
  match scanProject c1Machine c1Options with
  | .ok g =>
    (match g.edges with
     | [e1, e2] =>
       e1.source = e2.source && e1.target = e2.target &&
       decide (e1.type = e2.type) && e1.statement = e2.statement &&
       e1.loc ≠ e2.loc
     | _ => false)
  | .error _ => false

/-- A minimal machine with a single dependency-free file. -/
def c1WMachine : Machine := [.dir "repo" [.file "a.ts" ⟨"const x = 1", some []⟩]]

def plainOptions : ScanOptions :=
  { root := "/repo", maxFiles := 100, includeExternal := true }

/-- A machine where only `a/x.ts` exists next to `a/b.ts`. -/
def c4WMachine : Machine :=
  [.dir "repo" [.dir "a" [.file "b.ts" ⟨"", none⟩, .file "x.ts" ⟨"", none⟩]]]

/-! ### The non-ignored file count of a traversal, mirroring `walk` -/

mutual

def countEntry : FSTree → String → List String → Nat
  | .dir name ch, relDir, pats =>
    let relPath := relJoin relDir name
    if relPath = "" then 0
    else if ignoresPath pats relPath then 0
    else countEntries ch relPath (combinedPatternsFor relPath pats ch)
  | .file name _, relDir, pats =>
    let relPath := relJoin relDir name
    if relPath = "" then 0
    else if ignoresPath pats relPath then 0
    else 1

def countEntries : List FSTree → String → List String → Nat
  | [], _, _ => 0
  | e :: rest, relDir, pats =>
    countEntry e relDir pats + countEntries rest relDir pats

end

/-- How many non-ignored files the traversal of `root` encounters. -/
def eligibleCount (m : Machine) (root : String) : Nat :=
  let ch := ((childrenAt m (resolveAbs root)).getD [])
  countEntries ch "" (combinedPatternsFor "" ALWAYS_IGNORE ch)

/-! ### Edge dedup keys: shapes and cleanliness -/

def PipeFree (s : String) : Prop := '|' ∉ chars s

def pipeFreeB (s : String) : Bool := !(chars s).contains '|'

/-- The shape of an external edge's dedup key with a pipe-free source. -/
def ExtKeyShape (k : String) : Prop :=
  ∃ a b, PipeFree a ∧ k = a ++ "|__external__|external|" ++ b

/-- How an edge relates to the dedup key it was created from: the id is
the hash of the key, and the key is assembled from the edge's source,
target and type, with a fourth component (the full statement for resolved
edges, the raw specifier for external edges, nothing for contains edges). -/
def KeyRel (e : GraphEdge) (k : String) : Prop :=
  e.id = hashId k ∧
  ((e.type = .contains ∧ k = e.source ++ "|" ++ e.target ++ "|contains") ∨
   ∃ p, k = e.source ++ "|" ++ e.target ++ "|" ++ e.type.str ++ "|" ++ p)

def EdgesKeyed (st : ScanSt) : Prop :=
  List.Forall₂ KeyRel st.edges st.edgeKeys ∧ st.edgeKeys.Nodup

/-- No pipe in any import binding name and a clean resolution target for
one dependency record. -/
def cleanDepB (m : Machine) (root fullPath : String) (dep : Dependency) : Bool :=
  (match dep.imports with
   | none => true
   | some bs => bs.all (fun b => pipeFreeB b.imported)) &&
  (match resolveImport m root fullPath dep.specifier with
   | some r =>
     (match r.resolved with
      | some p =>
        pipeFreeB (relativeAbs root p) &&
          !(relativeAbs root p = "__external__" : Bool)
      | none => true)
   | none => true)

def cleanFileB (m : Machine) (root : String) (fullPath : String) : Bool :=
  pipeFreeB (relativeAbs root fullPath) &&
  (match readData m fullPath with
   | none => true
   | some fd =>
     (extractSymbols fullPath fd).all (fun s => pipeFreeB s.name) &&
     (extractDependencies fullPath fd).all (cleanDepB m root fullPath))

/-- No `|` in any scanned relative path, exported symbol name, import
binding name or resolved target, and no in-tree dependency resolving to
the relative path `__external__`. -/
def cleanScanB (m : Machine) (root : String) (files : List String) : Bool :=
  files.all (cleanFileB m root)

/-! ### Route path shapes, spelled out (for the node-typing claim) -/

/-- The language of `/(^|\/)app\/(.*\/)?(page|route)\.(t|j)sx?$/`: some
(possibly empty) prefix ending at a segment boundary, the literal `app/`,
an arbitrary (possibly empty) middle ending in `/`, then one of the eight
page/route endings. -/
def AppRouteShape (s : String) : Prop :=
  ∃ pre mid e, e ∈ routeEndings ∧
    (pre = [] ∨ ∃ p2, pre = p2 ++ ['/']) ∧
    (mid = [] ∨ ∃ m2, mid = m2 ++ ['/']) ∧
    chars s = pre ++ chars "app/" ++ mid ++ chars e

/-- The language of `/(^|\/)pages\/.+\.(t|j)sx?$/`: a boundary prefix, the
literal `pages/`, a nonempty body, then a script extension. -/
def PagesRouteShape (s : String) : Prop :=
  ∃ pre body e, e ∈ pageExts ∧
    (pre = [] ∨ ∃ p2, pre = p2 ++ ['/']) ∧ body ≠ [] ∧
    chars s = pre ++ chars "pages/" ++ body ++ chars e

/-- A pages-style path whose basename starts with an underscore. -/
def PagesUnderscore (s : String) : Prop :=
  (jsIncludes s "/pages/" = true ∨ jsStartsWith s "pages/" = true) ∧
  jsStartsWith (basenameP s) "_" = true

/-- What one step of the traversal guarantees: an error is always the
capacity message; a success adds exactly the non-ignored file count to the
total (staying within the ceiling whenever it counted anything), never
touches edges, keys or the external counter, only adds nodes and ignored
nodes whose ids are supported file paths, and keeps node ids duplicate
free. -/
def WalkFact (maxFiles : Nat) (st : ScanSt) (cnt : Nat) :
    Except String ScanSt → Prop
  | .error msg => msg = capacityMsg maxFiles
  | .ok st' =>
    st'.totalFiles = st.totalFiles + cnt ∧
    (1 ≤ cnt → st'.totalFiles ≤ maxFiles) ∧
    st'.edges = st.edges ∧
    st'.edgeKeys = st.edgeKeys ∧
    st'.externalCount = st.externalCount ∧
    (∀ n, n ∈ st'.nodes → n ∈ st.nodes ∨ isSupportedFile n.id = true) ∧
    (∀ n, n ∈ st'.ignoredNodes → n ∈ st.ignoredNodes ∨ isSupportedFile n.id = true) ∧
    ((st.nodes.map GraphNode.id).Nodup → (st'.nodes.map GraphNode.id).Nodup)

/-- The lockstep relation between the externals-shown accumulator `t` and
the externals-hidden accumulator `f` of two otherwise-identical scans: the
hidden run keeps exactly the non-sentinel nodes and non-external edges,
agrees on every non-external-shaped dedup key, and matches every other
accumulator field. -/
def SimRel (t f : ScanSt) : Prop :=
  f.nodes = t.nodes.filter (fun n => decide (n.id ≠ "__external__")) ∧
  f.edges = t.edges.filter (fun e => decide (e.type ≠ EdgeType.external)) ∧
  (∀ k, ¬ExtKeyShape k → (k ∈ t.edgeKeys ↔ k ∈ f.edgeKeys)) ∧
  f.ignoredNodes = t.ignoredNodes ∧
  f.filesToParse = t.filesToParse ∧
  f.totalFiles = t.totalFiles ∧
  f.ignoredCount = t.ignoredCount ∧
  f.externalCount = t.externalCount

/-- No external-sentinel artifacts yet: every node id differs from
`__external__` and no edge is typed external (true of the state entering
the dependency phase). -/
def NoSentinel (st : ScanSt) : Prop :=
  (∀ n ∈ st.nodes, n.id ≠ "__external__") ∧
  (∀ e ∈ st.edges, e.type ≠ EdgeType.external)

/-! ## Theorems -/

set_option maxRecDepth 4000

/-- **C7**: for a root containing `a.ts` importing `./b`, `b.ts`, and a
`.gitignore` listing `b.ts`, file-granularity extraction returns node
`a.ts` typed module, node `b.ts` typed module with `ignored = true`,
exactly one `static` edge `a.ts -> b.ts` and no other edge, and
`ignoredCount = 1`. -/
theorem c7_gitignore_scenario : c7Check = true := by decide

/-- **C6**: in symbol mode, the dependency importing `{ foo }` from a file
exporting `function foo(){}` produces exactly one edge targeting
`b.ts::foo` and no file-level edge for it, while the dependency whose
binding `bar` matches no exported symbol produces a file-level edge and no
symbol edge. -/
theorem c6_symbol_mode_scenario : c6Check = true := by decide

/-- **C5** (the code against the claim): the resolver classifies
`/repo-x/b.ts` as in-tree for root `/repo` although it lies outside the
root (its segments do not extend the root's), because the root-boundary
check is a bare string-prefix test; the assembled graph then carries an
in-tree `static` edge targeting `../repo-x/b.ts`. -/
theorem c5_root_prefix_escape :
    resolveImport c5Machine "/repo" "/repo/a.ts" "../repo-x/b.ts" =
      some { external := false, resolved := some "/repo-x/b.ts" } ∧
    (splitSegs "/repo").isPrefixOf (splitSegs "/repo-x/b.ts") = false ∧
    c5Check = true := by
  refine ⟨by decide, by decide, by decide⟩

/-- **C9 counterexample**: `pages/_app.tsx` matches the claimed
underscore-prefixed pages route shape, yet node typing assigns `module`,
not `route`. -/
theorem c9_underscore_pages_not_route :
    nodeTypeFromPath "pages/_app.tsx" = NodeType.module ∧
    nodeTypeFromPath "pages/_app.tsx" ≠ NodeType.route := by decide

/-- **C4 counterexample**: with both `a/x.ts` and `a/x/index.ts` present,
`./x` from `a/b.ts` resolves to `a/x/index.ts`, not to the existing
`a/x.ts` the claim promises. -/
theorem c4_index_beats_extension :
    statIsFile c4Machine "/repo/a/x.ts" = true ∧
    resolveImport c4Machine "/repo" "/repo/a/b.ts" "./x" =
      some { external := false, resolved := some "/repo/a/x/index.ts" } ∧
    "/repo/a/x/index.ts" ≠ "/repo/a/x.ts" := by
  refine ⟨by decide, by decide, by decide⟩

/-- **C10 counterexample**: when an in-tree import resolves to an
extensionless file literally named `__external__`, the run with externals
hidden contains a node (id `__external__`, label `__external__`) that the
externals-shown run does not contain at all, so the two node sets do not
differ merely by the sentinel node. -/
theorem c10_sentinel_collision : c10CexCheck = true := by decide

/-- **C1 counterexample**: two import statements agreeing on their first
200 characters produce two distinct edges (different locations) that agree
on source, target, type and stored statement, because stored statements
are truncated to 200 characters while dedup keys use the full text. -/
theorem c1_truncated_statement_collision : c1CexCheck = true := by decide

/-- **C8 counterexample**: a `require` call with two arguments, the first
a string literal, still yields a dependency record, although the claim
says a call with more than one argument yields none. -/
theorem c8_extra_argument_still_recorded :
    extractDependencies "a.ts"
      ⟨"require(\"x\", y)",
       some [.callStmt (.identCallee "require") [.stringLit "x", .otherExpr]
         "require(\"x\", y)" none]⟩ =
      [{ specifier := "x", type := .static,
         statement := some "require(\"x\", y)" }] := by decide

/-! ### The node map: membership and id-uniqueness lemmas -/

theorem nodesSet_mem {ns : List GraphNode} {x n : GraphNode}
    (h : n ∈ nodesSet ns x) : n = x ∨ n ∈ ns := by
  induction ns with
  | nil => simpa [nodesSet] using h
  | cons y ys ih =>
    by_cases hy : y.id = x.id
    · simp only [nodesSet, if_pos hy, List.mem_cons] at h
      rcases h with h | h
      · exact .inl h
      · exact .inr (List.mem_cons_of_mem _ h)
    · simp only [nodesSet, if_neg hy, List.mem_cons] at h
      rcases h with h | h
      · exact .inr (by simp [h])
      · rcases ih h with h2 | h2
        · exact .inl h2
        · exact .inr (List.mem_cons_of_mem _ h2)

theorem mem_map_id_nodesSet {ns : List GraphNode} {x : GraphNode} {k : String} :
    k ∈ (nodesSet ns x).map GraphNode.id ↔ k = x.id ∨ k ∈ ns.map GraphNode.id := by
  induction ns with
  | nil => simp [nodesSet]
  | cons y ys ih =>
    by_cases hy : y.id = x.id
    · simp only [nodesSet, if_pos hy, List.map_cons, List.mem_cons]
      rw [← hy]
      tauto
    · simp only [nodesSet, if_neg hy, List.map_cons, List.mem_cons, ih]
      tauto

theorem nodesSet_ids_nodup {ns : List GraphNode} {x : GraphNode}
    (h : (ns.map GraphNode.id).Nodup) :
    ((nodesSet ns x).map GraphNode.id).Nodup := by
  induction ns with
  | nil => simp [nodesSet]
  | cons y ys ih =>
    rw [List.map_cons, List.nodup_cons] at h
    by_cases hy : y.id = x.id
    · simp only [nodesSet, if_pos hy, List.map_cons, List.nodup_cons]
      exact ⟨by rw [← hy]; exact h.1, h.2⟩
    · simp only [nodesSet, if_neg hy, List.map_cons, List.nodup_cons,
        mem_map_id_nodesSet]
      exact ⟨by tauto, ih h.2⟩

theorem nodesHas_eq_false {ns : List GraphNode} {k : String}
    (h : nodesHas ns k = false) {n : GraphNode} (hn : n ∈ ns) : n.id ≠ k := by
  intro hk
  rw [nodesHas, List.any_eq_false] at h
  have := h n hn
  simp [hk] at this

theorem nodesSet_eq_append {ns : List GraphNode} {x : GraphNode}
    (h : nodesHas ns x.id = false) : nodesSet ns x = ns ++ [x] := by
  induction ns with
  | nil => simp [nodesSet]
  | cons y ys ih =>
    rw [nodesHas, List.any_cons, Bool.or_eq_false_iff] at h
    have hy : y.id ≠ x.id := by
      intro he
      simp [he] at h
    simp only [nodesSet, if_neg hy, List.cons_append, List.cons.injEq, true_and]
    exact ih (by rw [nodesHas]; exact h.2)

/-! ### A fold-invariant helper -/

theorem foldl_preserve {α σ : Type} (P : σ → Prop) (f : σ → α → σ) :
    ∀ (l : List α) (s : σ), (∀ s2 a, a ∈ l → P s2 → P (f s2 a)) → P s →
      P (l.foldl f s) := by
  intro l
  induction l with
  | nil => exact fun s _ h => h
  | cons a as ih =>
    intro s hstep h
    rw [List.foldl_cons]
    exact ih _ (fun s2 b hb => hstep s2 b (List.mem_cons_of_mem _ hb))
      (hstep s a (List.mem_cons_self _ _) h)

/-! ### Traversal facts (error message, file count, untouched fields) -/

theorem walkFact_skip {maxFiles : Nat} {st : ScanSt} :
    WalkFact maxFiles st 0 (.ok st) :=
  ⟨by omega, by omega, rfl, rfl, rfl, fun _ hn => .inl hn, fun _ hn => .inl hn,
   fun h => h⟩

theorem walkFact_ignored_dir {maxFiles : Nat} {st : ScanSt} :
    WalkFact maxFiles st 0 (.ok { st with ignoredCount := st.ignoredCount + 1 }) :=
  ⟨(Nat.add_zero _).symm, by omega, rfl, rfl, rfl, fun _ hn => .inl hn,
   fun _ hn => .inl hn, fun h => h⟩

theorem walkFact_ignored_file {maxFiles : Nat} {st : ScanSt} {nd : GraphNode}
    (hsupp : isSupportedFile nd.id = true) :
    WalkFact maxFiles st 0 (.ok
      { st with
          ignoredCount := st.ignoredCount + 1,
          ignoredNodes := st.ignoredNodes ++ [nd] }) := by
  refine ⟨(Nat.add_zero _).symm, by omega, rfl, rfl, rfl, fun _ hn => .inl hn,
    ?_, fun h => h⟩
  intro n hn
  rcases List.mem_append.mp hn with h | h
  · exact .inl h
  · rw [List.mem_singleton] at h
    subst h
    exact .inr hsupp

theorem walkFact_counted {maxFiles : Nat} {st : ScanSt}
    (hmax : ¬st.totalFiles + 1 > maxFiles) :
    WalkFact maxFiles st 1 (.ok { st with totalFiles := st.totalFiles + 1 }) := by
  refine ⟨rfl, fun _ => ?_, rfl, rfl, rfl, fun _ hn => .inl hn,
    fun _ hn => .inl hn, fun h => h⟩
  show st.totalFiles + 1 ≤ maxFiles
  omega

theorem walkFact_counted_node {maxFiles : Nat} {st : ScanSt} {nd : GraphNode}
    {fp : String} (hmax : ¬st.totalFiles + 1 > maxFiles)
    (hsupp : isSupportedFile nd.id = true) :
    WalkFact maxFiles st 1 (.ok
      { st with
          totalFiles := st.totalFiles + 1,
          nodes := nodesSet st.nodes nd,
          filesToParse := st.filesToParse ++ [fp] }) := by
  refine ⟨rfl, fun _ => ?_, rfl, rfl, rfl, ?_, fun _ hn => .inl hn, ?_⟩
  · show st.totalFiles + 1 ≤ maxFiles
    omega
  · intro n hn
    rcases nodesSet_mem hn with h | h
    · subst h
      exact .inr hsupp
    · exact .inl h
  · exact fun h => nodesSet_ids_nodup h

theorem walkFact_compose {maxFiles : Nat} {st st2 : ScanSt} {c1 c2 : Nat}
    {out : Except String ScanSt} (h1 : WalkFact maxFiles st c1 (.ok st2))
    (h2 : WalkFact maxFiles st2 c2 out) :
    WalkFact maxFiles st (c1 + c2) out := by
  cases out with
  | error msg => exact h2
  | ok st3 =>
    obtain ⟨t1, b1, e1, k1, x1, n1, i1, d1⟩ := h1
    obtain ⟨t2, b2, e2, k2, x2, n2, i2, d2⟩ := h2
    refine ⟨by omega, ?_, by rw [e2, e1], by rw [k2, k1], by rw [x2, x1], ?_, ?_,
      fun h => d2 (d1 h)⟩
    · intro hc
      rcases Nat.lt_or_ge 0 c2 with hgt | hle
      · exact b2 (by omega)
      · have hz : c2 = 0 := by omega
        subst hz
        have := b1 (by omega)
        omega
    · intro n hn
      rcases n2 n hn with h | h
      · rcases n1 n h with h3 | h3
        · exact .inl h3
        · exact .inr h3
      · exact .inr h
    · intro n hn
      rcases i2 n hn with h | h
      · rcases i1 n h with h3 | h3
        · exact .inl h3
        · exact .inr h3
      · exact .inr h

theorem walk_facts (maxFiles : Nat) (root : String) :
    ∀ es relDir pats st, WalkFact maxFiles st (countEntries es relDir pats)
      (walkEntries maxFiles root es relDir pats st) := by
  refine (walkEntry.mutual_induct maxFiles root
    (fun e relDir pats st => WalkFact maxFiles st (countEntry e relDir pats)
      (walkEntry maxFiles root e relDir pats st))
    (fun es relDir pats st => WalkFact maxFiles st (countEntries es relDir pats)
      (walkEntries maxFiles root es relDir pats st))
    ?_ ?_ ?_ ?_ ?_ ?_ ?_ ?_ ?_ ?_ ?_ ?_).2
  · intro name ch relDir pats st relPath h
    simp only [walkEntry, countEntry, if_pos h]
    exact walkFact_skip
  · intro name ch relDir pats st relPath h hig
    simp only [walkEntry, countEntry, if_neg h, if_pos hig]
    exact walkFact_ignored_dir
  · intro name ch relDir pats st relPath h hig IH
    simp only [walkEntry, countEntry, if_neg h, if_neg hig]
    exact IH
  · intro name data relDir pats st relPath h
    simp only [walkEntry, countEntry, if_pos h]
    exact walkFact_skip
  · intro name data relDir pats st relPath h hig hsupp
    simp only [walkEntry, countEntry, if_neg h, if_pos hig, if_pos hsupp]
    exact walkFact_ignored_file hsupp
  · intro name data relDir pats st relPath h hig hsupp
    simp only [walkEntry, countEntry, if_neg h, if_pos hig, if_neg hsupp]
    exact walkFact_skip
  · intro name data relDir pats st relPath h hig totalFiles hcap
    simp only [walkEntry, countEntry, if_neg h, if_neg hig, if_pos hcap]
    exact rfl
  · intro name data relDir pats st relPath h hig totalFiles hcap hsupp
    rw [Bool.not_eq_true] at hsupp
    simp only [walkEntry, countEntry, if_neg h, if_neg hig, if_neg hcap, hsupp,
      Bool.not_false, if_pos]
    exact walkFact_counted hcap
  · intro name data relDir pats st relPath h hig totalFiles hcap hsupp
    rw [not_not] at hsupp
    simp only [walkEntry, countEntry, if_neg h, if_neg hig, if_neg hcap, hsupp,
      Bool.not_true, if_neg, ite_false]
    exact walkFact_counted_node hcap hsupp
  · intro relDir pats st
    simp only [walkEntries, countEntries]
    exact walkFact_skip
  · intro e rest relDir pats st msg h IH
    rw [h] at IH
    simp only [walkEntries, countEntries, h]
    exact IH
  · intro e rest relDir pats st st2 h IH1 IH2
    rw [h] at IH1
    simp only [walkEntries, countEntries, h]
    exact walkFact_compose IH1 IH2

theorem childrenAt_none_of_not_dir {m : Machine} {p : String}
    (h : statIsDir m p = false) : childrenAt m p = none := by
  rw [statIsDir, statAt] at h
  rw [childrenAt]
  cases hn : normAbsSegs (splitSegs p) with
  | nil =>
    rw [hn] at h
    simp at h
  | cons a l =>
    rw [hn] at h
    cases he : entryAtAux (a :: l) m with
    | none => simp [he]
    | some e =>
      cases e with
      | file n d => simp [he]
      | dir n ch => simp [he] at h

/-- **C3**: whenever the number of non-ignored files the traversal
encounters exceeds `maxFiles`, the whole extraction aborts with the
capacity error naming the configured limit, and no graph is returned. -/
theorem c3_capacity_abort (m : Machine) (opts : ScanOptions)
    (h : opts.maxFiles < eligibleCount m opts.root) :
    scanProject m opts = .error (capacityMsg opts.maxFiles) := by
  by_cases hd : statIsDir m (resolveAbs opts.root)
  · rw [scanProject, scanState, if_neg (by simp [hd])]
    have W := walk_facts opts.maxFiles (resolveAbs opts.root)
      ((childrenAt m (resolveAbs opts.root)).getD [])
      ""
      (combinedPatternsFor "" ALWAYS_IGNORE
        ((childrenAt m (resolveAbs opts.root)).getD []))
      {}
    rw [eligibleCount] at h
    cases hw : walkEntries opts.maxFiles (resolveAbs opts.root)
        ((childrenAt m (resolveAbs opts.root)).getD [])
        ""
        (combinedPatternsFor "" ALWAYS_IGNORE
          ((childrenAt m (resolveAbs opts.root)).getD []))
        {} with
    | error msg =>
      rw [hw] at W
      have W2 : msg = capacityMsg opts.maxFiles := W
      rw [W2]
      rfl
    | ok st1 =>
      rw [hw] at W
      obtain ⟨t, b, _⟩ := W
      have hz : ({} : ScanSt).totalFiles = 0 := rfl
      have h1 := b (by omega)
      omega
  · exfalso
    have hc := childrenAt_none_of_not_dir (by simpa using hd)
    rw [eligibleCount, hc] at h
    simp [countEntries] at h

/-- Witness for C3: a tree with four eligible files and `maxFiles = 3`
raises the capacity error mentioning the limit. -/
theorem c3_capacity_abort_witness :
    3 < eligibleCount c3Machine "/repo" ∧
    scanProject c3Machine c3Options = .error (capacityMsg 3) :=
  ⟨by decide, c3_capacity_abort c3Machine c3Options (by decide)⟩

/-! ### Node-id uniqueness through each assembly phase -/

theorem fileLevelEdge_nodes (relPath targetRel : String) (dep : Dependency)
    (st : ScanSt) : (fileLevelEdge relPath targetRel dep st).nodes = st.nodes := by
  simp only [fileLevelEdge]
  repeat' split
  all_goals rfl

theorem retargetFold_nodes (relPath targetRel : String) (dep : Dependency)
    (tsyms : List (String × SymbolInfo)) :
    ∀ (bs : List ImportBinding) (st : ScanSt) (c : Bool),
      (retargetFold relPath targetRel dep tsyms st c bs).1.nodes = st.nodes := by
  intro bs
  induction bs with
  | nil => intro st c; rfl
  | cons b bs ih =>
    intro st c
    simp only [retargetFold]
    repeat' split
    all_goals exact ih _ _

theorem processDep_nodup (m : Machine) (root : String)
    (granularity : ScanGranularity) (includeExternal : Bool) (smap : SymbolMap)
    (relPath fullPath : String) (st : ScanSt) (dep : Dependency)
    (h : (st.nodes.map GraphNode.id).Nodup) :
    (((processDep m root granularity includeExternal smap relPath fullPath st
      dep)).nodes.map GraphNode.id).Nodup := by
  simp only [processDep]
  repeat' split
  all_goals try simp only [fileLevelEdge_nodes, retargetFold_nodes]
  all_goals first
    | exact h
    | exact nodesSet_ids_nodup h

theorem depPhase_nodup (m : Machine) (root : String)
    (granularity : ScanGranularity) (includeExternal : Bool) (smap : SymbolMap)
    (files : List String) (st : ScanSt)
    (h : (st.nodes.map GraphNode.id).Nodup) :
    (((depPhase m root granularity includeExternal smap files st)).nodes.map
      GraphNode.id).Nodup := by
  refine foldl_preserve (fun s => (s.nodes.map GraphNode.id).Nodup) _ files st
    ?_ h
  intro s fp _ hs
  rw [depPhaseFile]
  split
  · exact hs
  · split
    · exact hs
    · exact foldl_preserve (fun s2 => (s2.nodes.map GraphNode.id).Nodup) _ _ s
        (fun s2 dep _ h2 => processDep_nodup m root granularity includeExternal
          smap (relativeAbs root fp) fp s2 dep h2) hs

theorem addSymbolEntry_nodup (relPath : String)
    (acc : ScanSt × List (String × SymbolInfo)) (s : SymbolInfo)
    (h : (acc.1.nodes.map GraphNode.id).Nodup) :
    (((addSymbolEntry relPath acc s)).1.nodes.map GraphNode.id).Nodup := by
  obtain ⟨st, entry⟩ := acc
  simp only [addSymbolEntry]
  repeat' split
  all_goals first
    | exact h
    | exact nodesSet_ids_nodup h

theorem symbolPhase_nodup (m : Machine) (root : String) (files : List String)
    (st : ScanSt) (h : (st.nodes.map GraphNode.id).Nodup) :
    (((symbolPhase m root files st)).1.nodes.map GraphNode.id).Nodup := by
  refine foldl_preserve (fun p : ScanSt × SymbolMap =>
    (p.1.nodes.map GraphNode.id).Nodup) _ files (st, []) ?_ h
  intro p fp _ hp
  simp only [symbolPhaseFile]
  repeat' split
  all_goals first
    | exact hp
    | exact foldl_preserve (fun q : ScanSt × List (String × SymbolInfo) =>
        (q.1.nodes.map GraphNode.id).Nodup) _ _ _
        (fun q s _ hq => addSymbolEntry_nodup _ q s hq) hp

theorem foldIgnored_nodup (st : ScanSt)
    (h : (st.nodes.map GraphNode.id).Nodup) :
    ((foldIgnored st).nodes.map GraphNode.id).Nodup := by
  refine foldl_preserve (fun s => (s.nodes.map GraphNode.id).Nodup) _
    st.ignoredNodes st ?_ h
  intro s n _ hs
  exact nodesSet_ids_nodup hs

theorem scanTail_nodup (m : Machine) (root : String)
    (granularity : ScanGranularity) (includeExternal : Bool) (st1 : ScanSt)
    (h : (st1.nodes.map GraphNode.id).Nodup) :
    (((scanTail m root granularity includeExternal st1)).nodes.map
      GraphNode.id).Nodup := by
  rw [scanTail]
  apply depPhase_nodup
  rw [phasePair]
  split
  · exact symbolPhase_nodup m root _ _ (foldIgnored_nodup st1 h)
  · exact foldIgnored_nodup st1 h

theorem filter_sentinel_le_one (ns : List GraphNode)
    (h : (ns.map GraphNode.id).Nodup) :
    (ns.filter (fun n => decide (n.id = "__external__") &&
      decide (n.type = NodeType.external))).length ≤ 1 := by
  induction ns with
  | nil => simp
  | cons y ys ih =>
    rw [List.map_cons, List.nodup_cons] at h
    by_cases hy : y.id = "__external__"
    · have hz : (ys.filter (fun n => decide (n.id = "__external__") &&
          decide (n.type = NodeType.external))).length = 0 := by
        rw [List.length_eq_zero]
        rw [List.filter_eq_nil_iff]
        intro n hn
        intro hcontra
        rw [Bool.and_eq_true, decide_eq_true_eq, decide_eq_true_eq] at hcontra
        apply h.1
        rw [hy, ← hcontra.1]
        exact List.mem_map_of_mem GraphNode.id hn
      rw [List.filter_cons]
      split
      · rw [List.length_cons, hz]
      · rw [hz]
        omega
    · rw [List.filter_cons]
      have : (decide (y.id = "__external__") &&
          decide (y.type = NodeType.external)) = false := by
        simp [hy]
      rw [this]
      simp only [Bool.false_eq_true, if_false]
      exact ih h.2

/-- **C2**: for every machine and options, extraction either fails or
returns a graph whose node ids are pairwise distinct, with at most one
external sentinel node (type external, id `__external__`). -/
theorem c2_node_ids_unique (m : Machine) (opts : ScanOptions) (g : GraphData)
    (h : scanProject m opts = .ok g) :
    (g.nodes.map GraphNode.id).Nodup ∧
    (g.nodes.filter (fun n => decide (n.id = "__external__") &&
      decide (n.type = NodeType.external))).length ≤ 1 := by
  rw [scanProject] at h
  cases hs : scanState m opts with
  | error e => rw [hs] at h; cases h
  | ok pr =>
    rw [hs, Except.map] at h
    injection h with h
    subst h
    rw [scanState] at hs
    split at hs
    · cases hs
    · split at hs
      · cases hs
      · rename_i st1 hw
        injection hs with hs
        have hnodes : pr.2 = scanTail m (resolveAbs opts.root)
            (opts.granularity.getD .file) opts.includeExternal st1 := by
          rw [← hs]
        have W := walk_facts opts.maxFiles (resolveAbs opts.root)
          ((childrenAt m (resolveAbs opts.root)).getD [])
          ""
          (combinedPatternsFor "" ALWAYS_IGNORE
            ((childrenAt m (resolveAbs opts.root)).getD []))
          {}
        rw [hw] at W
        obtain ⟨_, _, _, _, _, _, _, d⟩ := W
        have h1 : (st1.nodes.map GraphNode.id).Nodup := d (by simp)
        have h2 := scanTail_nodup m (resolveAbs opts.root)
          (opts.granularity.getD .file) opts.includeExternal st1 h1
        rw [← hnodes] at h2
        exact ⟨h2, filter_sentinel_le_one _ h2⟩

/-- Witness for C2 at a concrete machine. -/
theorem c2_node_ids_unique_witness :
    ∃ g, scanProject c1WMachine plainOptions = Except.ok g ∧
      (g.nodes.map GraphNode.id).Nodup ∧
      (g.nodes.filter (fun n => decide (n.id = "__external__") &&
        decide (n.type = NodeType.external))).length ≤ 1 :=
  ⟨_, rfl, c2_node_ids_unique c1WMachine plainOptions _ rfl⟩

/-! ### Edge/dedup-key correspondence through each assembly phase -/

theorem contains_true_of_mem {l : List String} {k : String} (hm : k ∈ l) :
    l.contains k = true := by
  rw [List.contains_eq_any_beq, List.any_eq_true]
  exact ⟨k, hm, by simp⟩

theorem mem_of_contains_true {l : List String} {k : String}
    (h : l.contains k = true) : k ∈ l := by
  rw [List.contains_eq_any_beq, List.any_eq_true] at h
  obtain ⟨x, hx, he⟩ := h
  rw [beq_iff_eq] at he
  rw [he]
  exact hx

theorem forall₂_append_one {R : GraphEdge → String → Prop}
    {l₁ : List GraphEdge} {l₂ : List String} {e : GraphEdge} {k : String}
    (h : List.Forall₂ R l₁ l₂) (he : R e k) :
    List.Forall₂ R (l₁ ++ [e]) (l₂ ++ [k]) := by
  induction h with
  | nil => exact List.Forall₂.cons he List.Forall₂.nil
  | cons hab _ ih => exact List.Forall₂.cons hab ih

theorem nodup_append_one {l : List String} {k : String}
    (h : l.Nodup) (hk : k ∉ l) : (l ++ [k]).Nodup := by
  rw [List.nodup_append]
  refine ⟨h, List.nodup_singleton k, ?_⟩
  intro a ha hb
  rw [List.mem_singleton] at hb
  subst hb
  exact hk ha

theorem edgesKeyed_push {st : ScanSt} {e : GraphEdge} {k : String}
    (h : EdgesKeyed st) (hk : ¬st.edgeKeys.contains k = true)
    (hrel : KeyRel e k) :
    EdgesKeyed { st with edges := st.edges ++ [e], edgeKeys := st.edgeKeys ++ [k] } := by
  obtain ⟨hf, hn⟩ := h
  exact ⟨forall₂_append_one hf hrel,
    nodup_append_one hn (fun hm => hk (contains_true_of_mem hm))⟩

theorem extKey_shape (relPath spec : String) :
    relPath ++ "|__external__|external|" ++ spec =
      relPath ++ "|" ++ "__external__" ++ "|" ++ "external" ++ "|" ++ spec := by
  have h : ("|" ++ "__external__" ++ "|" ++ "external" ++ "|" : String) =
      "|__external__|external|" := rfl
  rw [← h]
  simp only [String.append_assoc]

theorem fileLevelEdge_keyed {relPath targetRel : String} {dep : Dependency}
    {st : ScanSt} (h : EdgesKeyed st) :
    EdgesKeyed (fileLevelEdge relPath targetRel dep st) := by
  simp only [fileLevelEdge]
  generalize (if STYLE_EXTENSIONS.contains (extnameP targetRel) then
    EdgeType.style else dep.type) = et
  split
  · exact h
  · next hc => exact edgesKeyed_push h hc ⟨rfl, .inr ⟨_, rfl⟩⟩

theorem retargetFold_keyed {relPath targetRel : String} {dep : Dependency}
    {tsyms : List (String × SymbolInfo)} :
    ∀ (bs : List ImportBinding) (st : ScanSt) (c : Bool), EdgesKeyed st →
      EdgesKeyed (retargetFold relPath targetRel dep tsyms st c bs).1 := by
  intro bs
  induction bs with
  | nil => exact fun st c h => h
  | cons b bs ih =>
    intro st c h
    simp only [retargetFold]
    split
    · exact ih _ _ h
    · generalize (if b.kind = BindKind.default then "default" else b.imported) = nm
      split
      · exact ih _ _ h
      · split
        · exact ih _ _ h
        · next hc => exact ih _ _ (edgesKeyed_push h hc ⟨rfl, .inr ⟨_, rfl⟩⟩)

theorem processDep_keyed (m : Machine) (root : String)
    (granularity : ScanGranularity) (includeExternal : Bool) (smap : SymbolMap)
    (relPath fullPath : String) (st : ScanSt) (dep : Dependency)
    (h : EdgesKeyed st) :
    EdgesKeyed (processDep m root granularity includeExternal smap relPath
      fullPath st dep) := by
  simp only [processDep]
  split
  · exact h
  · split
    · split
      · exact h
      · split
        · split
          · exact h
          · next hc =>
            refine edgesKeyed_push h hc ⟨rfl, .inr ⟨dep.specifier, ?_⟩⟩
            exact extKey_shape relPath dep.specifier
        · split
          · exact h
          · next hc =>
            refine edgesKeyed_push h hc ⟨rfl, .inr ⟨dep.specifier, ?_⟩⟩
            exact extKey_shape relPath dep.specifier
    · split
      · exact h
      · repeat' split
        all_goals first
          | exact h
          | exact retargetFold_keyed _ _ _ h
          | exact fileLevelEdge_keyed h
          | exact fileLevelEdge_keyed (retargetFold_keyed _ _ _ h)

theorem depPhase_keyed (m : Machine) (root : String)
    (granularity : ScanGranularity) (includeExternal : Bool) (smap : SymbolMap)
    (files : List String) (st : ScanSt) (h : EdgesKeyed st) :
    EdgesKeyed (depPhase m root granularity includeExternal smap files st) := by
  refine foldl_preserve EdgesKeyed _ files st ?_ h
  intro s fp _ hs
  rw [depPhaseFile]
  split
  · exact hs
  · split
    · exact hs
    · exact foldl_preserve EdgesKeyed _ _ s
        (fun s2 dep _ h2 => processDep_keyed m root granularity includeExternal
          smap (relativeAbs root fp) fp s2 dep h2) hs

theorem addSymbolEntry_keyed (relPath : String)
    (acc : ScanSt × List (String × SymbolInfo)) (s : SymbolInfo)
    (h : EdgesKeyed acc.1) : EdgesKeyed (addSymbolEntry relPath acc s).1 := by
  obtain ⟨st, entry⟩ := acc
  simp only [addSymbolEntry]
  split
  · split
    · exact h
    · next hc => exact edgesKeyed_push h hc ⟨rfl, .inl ⟨rfl, rfl⟩⟩
  · split
    · exact h
    · next hc => exact edgesKeyed_push h hc ⟨rfl, .inl ⟨rfl, rfl⟩⟩

theorem symbolPhase_keyed (m : Machine) (root : String) (files : List String)
    (st : ScanSt) (h : EdgesKeyed st) :
    EdgesKeyed (symbolPhase m root files st).1 := by
  refine foldl_preserve (fun p : ScanSt × SymbolMap => EdgesKeyed p.1) _
    files (st, []) ?_ h
  intro p fp _ hp
  simp only [symbolPhaseFile]
  repeat' split
  all_goals first
    | exact hp
    | exact foldl_preserve (fun q : ScanSt × List (String × SymbolInfo) =>
        EdgesKeyed q.1) _ _ _
        (fun q s _ hq => addSymbolEntry_keyed _ q s hq) hp

theorem foldIgnored_keyed (st : ScanSt) (h : EdgesKeyed st) :
    EdgesKeyed (foldIgnored st) := by
  refine foldl_preserve EdgesKeyed _ st.ignoredNodes st ?_ h
  intro s n _ hs
  exact hs

theorem scanTail_keyed (m : Machine) (root : String)
    (granularity : ScanGranularity) (includeExternal : Bool) (st1 : ScanSt)
    (h : EdgesKeyed st1) :
    EdgesKeyed (scanTail m root granularity includeExternal st1) := by
  rw [scanTail]
  apply depPhase_keyed
  rw [phasePair]
  split
  · exact symbolPhase_keyed m root _ _ (foldIgnored_keyed st1 h)
  · exact foldIgnored_keyed st1 h

/-- **C1** (amended): every returned edge list is in one-to-one, in-order
correspondence with a duplicate-free list of dedup keys; each edge's id is
the hash of its key, and each key is assembled from the edge's source,
target and type (with the full statement, the raw specifier, or nothing as
the fourth component — see `KeyRel`). -/
theorem c1_edge_keys_unique (m : Machine) (opts : ScanOptions) (g : GraphData)
    (h : scanProject m opts = .ok g) :
    ∃ keys, List.Forall₂ KeyRel g.edges keys ∧ keys.Nodup := by
  rw [scanProject] at h
  cases hs : scanState m opts with
  | error e => rw [hs] at h; cases h
  | ok pr =>
    rw [hs, Except.map] at h
    injection h with h
    subst h
    rw [scanState] at hs
    split at hs
    · cases hs
    · split at hs
      · cases hs
      · rename_i st1 hw
        injection hs with hs
        have W := walk_facts opts.maxFiles (resolveAbs opts.root)
          ((childrenAt m (resolveAbs opts.root)).getD [])
          ""
          (combinedPatternsFor "" ALWAYS_IGNORE
            ((childrenAt m (resolveAbs opts.root)).getD []))
          {}
        rw [hw] at W
        obtain ⟨_, _, he, hk, _, _, _, _⟩ := W
        have h1 : EdgesKeyed st1 := by
          constructor
          · rw [he, hk]
            exact List.Forall₂.nil
          · rw [hk]
            exact List.nodup_nil
        have h2 := scanTail_keyed m (resolveAbs opts.root)
          (opts.granularity.getD .file) opts.includeExternal st1 h1
        rw [← hs]
        exact ⟨_, h2.1, h2.2⟩

/-- Witness for the amended C1 at a concrete machine. -/
theorem c1_edge_keys_unique_witness :
    ∃ g, scanProject c1WMachine plainOptions = Except.ok g ∧
      ∃ keys, List.Forall₂ KeyRel g.edges keys ∧ keys.Nodup :=
  ⟨_, rfl, c1_edge_keys_unique c1WMachine plainOptions _ rfl⟩

/-- **C8** (amended): in any surrounding program, a dynamic `import()` or
`require()` call contributes a dependency record exactly when its first
argument is a string literal, irrespective of the number of arguments. -/
theorem c8_first_argument_literal (pre post : List Stmt) (args : List Expr)
    (stmt : String) (loc : Option Loc) :
    (extractDependencies "a.ts"
        ⟨"", some (pre ++ [Stmt.callStmt .importCallee args stmt loc] ++ post)⟩ =
      extractDependencies "a.ts" ⟨"", some pre⟩ ++
        (match args.head? with
         | some (.stringLit v) =>
           [{ specifier := v, type := .dynamic, statement := some stmt,
              loc := loc }]
         | _ => []) ++
        extractDependencies "a.ts" ⟨"", some post⟩) ∧
    (extractDependencies "a.ts"
        ⟨"", some (pre ++ [Stmt.callStmt (.identCallee "require") args stmt loc]
          ++ post)⟩ =
      extractDependencies "a.ts" ⟨"", some pre⟩ ++
        (match args.head? with
         | some (.stringLit v) =>
           [{ specifier := v, type := .static, statement := some stmt,
              loc := loc }]
         | _ => []) ++
        extractDependencies "a.ts" ⟨"", some post⟩) := by
  have hs : extnameP "a.ts" ∈ SCRIPT_EXTENSIONS := by decide
  have ht : extnameP "a.ts" ∉ STYLE_EXTENSIONS := by decide
  constructor <;>
    cases args with
    | nil => simp [extractDependencies, hs, ht, depsOfStmt]
    | cons a as =>
      cases a with
      | stringLit v => simp [extractDependencies, hs, ht, depsOfStmt]
      | otherExpr => simp [extractDependencies, hs, ht, depsOfStmt]

/-- One definitional step: resolving `./x` from `/repo/a/b.ts` probes the
candidate `/repo/a/x` and then applies the root-prefix test. -/
theorem resolveImport_dotx (m : Machine) :
    resolveImport m "/repo" "/repo/a/b.ts" "./x" =
      match resolveWithExtensions m (some "/repo/a/x") with
      | none => some ⟨true, none⟩
      | some resolved =>
        if ¬jsStartsWith resolved "/repo" then some ⟨true, none⟩
        else some ⟨false, some resolved⟩ := rfl

/-- **C4** (amended): `./x` from `a/b.ts` resolves through ordered probes —
the literal `a/x` as a file, then directory-index probes, then extension
probes — so it resolves to `a/x.ts` when that file exists and no earlier
probe succeeds, to `a/x/index.ts` when `a/x` is a directory containing it
and is not itself a file, and is external when no probe succeeds. -/
theorem c4_probe_order (m : Machine) :
    (statIsFile m "/repo/a/x" = false →
      firstIndexHit m "/repo/a/x" IMPORT_EXTENSIONS = none →
      statIsFile m "/repo/a/x.ts" = true →
      resolveImport m "/repo" "/repo/a/b.ts" "./x" =
        some { external := false, resolved := some "/repo/a/x.ts" }) ∧
    (statIsFile m "/repo/a/x" = false →
      statIsDir m "/repo/a/x" = true →
      statIsFile m "/repo/a/x/index.ts" = true →
      resolveImport m "/repo" "/repo/a/b.ts" "./x" =
        some { external := false, resolved := some "/repo/a/x/index.ts" }) ∧
    (statIsFile m "/repo/a/x" = false →
      firstIndexHit m "/repo/a/x" IMPORT_EXTENSIONS = none →
      firstExtHit m "/repo/a/x" IMPORT_EXTENSIONS = none →
      resolveImport m "/repo" "/repo/a/b.ts" "./x" =
        some { external := true, resolved := none }) := by
  have hext : extnameP "/repo/a/x" = "" := rfl
  have happ : ("/repo/a/x" ++ ".ts" : String) = "/repo/a/x.ts" := rfl
  have hjoin : joinAbs "/repo/a/x" ("index" ++ ".ts") = "/repo/a/x/index.ts" := rfl
  have hsw : jsStartsWith "/repo/a/x.ts" "/repo" = true := by decide
  have hswi : jsStartsWith "/repo/a/x/index.ts" "/repo" = true := by decide
  refine ⟨?_, ?_, ?_⟩
  · intro h1 h2 h3
    rw [resolveImport_dotx, resolveWithExtensions]
    rw [h1]
    simp only [Bool.false_eq_true, if_false, h2, ite_self]
    rw [hext]
    simp only [if_pos rfl, IMPORT_EXTENSIONS, firstExtHit, happ, h3, if_pos rfl]
    simp [hsw]
  · intro h1 h2 h3
    rw [resolveImport_dotx, resolveWithExtensions]
    rw [h1]
    simp only [Bool.false_eq_true, if_false, h2, if_pos rfl, IMPORT_EXTENSIONS,
      firstIndexHit, hjoin, h3]
    simp [hswi]
  · intro h1 h2 h3
    rw [resolveImport_dotx, resolveWithExtensions]
    rw [h1]
    simp only [Bool.false_eq_true, if_false, h2, ite_self]
    rw [hext]
    simp [h3]

/-- Witness for the amended C4: with only `a/x.ts` present the resolver
returns it. -/
theorem c4_probe_order_witness :
    statIsFile c4WMachine "/repo/a/x" = false ∧
    firstIndexHit c4WMachine "/repo/a/x" IMPORT_EXTENSIONS = none ∧
    statIsFile c4WMachine "/repo/a/x.ts" = true ∧
    resolveImport c4WMachine "/repo" "/repo/a/b.ts" "./x" =
      some { external := false, resolved := some "/repo/a/x.ts" } :=
  ⟨by decide, by decide, by decide,
    (c4_probe_order c4WMachine).1 (by decide) (by decide) (by decide)⟩

/-! ### Route-regex semantics: the matchers recognize exactly the claimed
path languages -/

theorem chars_appendL (a b : String) : chars (a ++ b) = chars a ++ chars b := rfl

theorem chars_ofChars (l : List Char) : chars (ofChars l) = l := rfl

theorem chars_inj {a b : String} (h : chars a = chars b) : a = b := by
  cases a
  cases b
  exact congrArg String.mk h

theorem isPrefixL_iff : ∀ (p l : List Char),
    isPrefixL p l = true ↔ ∃ r, l = p ++ r := by
  intro p
  induction p with
  | nil =>
    intro l
    simp [isPrefixL]
  | cons c cs ih =>
    intro l
    cases l with
    | nil => simp [isPrefixL]
    | cons d ds =>
      rw [isPrefixL]
      simp only [Bool.and_eq_true, decide_eq_true_eq, ih]
      constructor
      · rintro ⟨hc, r, hr⟩
        exact ⟨r, by rw [hc, hr]; rfl⟩
      · rintro ⟨r, hr⟩
        injection hr with h1 h2
        exact ⟨h1.symm, r, h2⟩

theorem endsWith_iff (s suf : String) :
    jsEndsWith s suf = true ↔ ∃ p, chars s = p ++ chars suf := by
  rw [jsEndsWith, isPrefixL_iff]
  constructor
  · rintro ⟨r, hr⟩
    refine ⟨r.reverse, ?_⟩
    have h2 := congrArg List.reverse hr
    simpa using h2
  · rintro ⟨p, hp⟩
    refine ⟨p.reverse, ?_⟩
    rw [hp]
    simp

theorem boundaryScan_iff (tail : String → Bool) (marker : String) :
    ∀ l, boundaryScan tail marker l = true ↔
      ∃ l1 l2, l = l1 ++ '/' :: l2 ∧ isPrefixL (chars marker) l2 = true ∧
        tail (ofChars (l2.drop (chars marker).length)) = true := by
  intro l
  induction l with
  | nil =>
    rw [boundaryScan]
    constructor
    · intro h
      cases h
    · rintro ⟨l1, l2, he, -, -⟩
      cases l1 <;> cases he
  | cons c rest ih =>
    rw [boundaryScan]
    simp only [Bool.or_eq_true, Bool.and_eq_true, decide_eq_true_eq, ih]
    constructor
    · rintro (⟨⟨hc, hp⟩, ht⟩ | ⟨l1, l2, he, hp, ht⟩)
      · exact ⟨[], rest, by rw [hc]; simp, hp, ht⟩
      · exact ⟨c :: l1, l2, by rw [he]; rfl, hp, ht⟩
    · rintro ⟨l1, l2, he, hp, ht⟩
      cases l1 with
      | nil =>
        injection he with h1 h2
        subst h2
        exact .inl ⟨⟨h1, hp⟩, ht⟩
      | cons a l1b =>
        injection he with h1 h2
        subst h1
        exact .inr ⟨l1b, l2, h2, hp, ht⟩

theorem appTailOk_iff (t : String) :
    appTailOk t = true ↔ ∃ mid e, e ∈ routeEndings ∧
      (mid = [] ∨ ∃ m2, mid = m2 ++ ['/']) ∧ chars t = mid ++ chars e := by
  rw [appTailOk]
  simp only [Bool.or_eq_true, List.any_eq_true, decide_eq_true_eq]
  constructor
  · rintro (⟨e, he, ht⟩ | ⟨e, he, hew⟩)
    · exact ⟨[], e, he, .inl rfl, by rw [ht]; rfl⟩
    · rw [endsWith_iff] at hew
      obtain ⟨p, hp⟩ := hew
      refine ⟨p ++ ['/'], e, he, .inr ⟨p, rfl⟩, ?_⟩
      rw [hp, chars_appendL]
      simp
      rfl
  · rintro ⟨mid, e, he, hmid | ⟨m2, hm⟩, ht⟩
    · subst hmid
      exact .inl ⟨e, he, chars_inj (by simpa using ht)⟩
    · refine .inr ⟨e, he, ?_⟩
      rw [endsWith_iff]
      refine ⟨m2, ?_⟩
      rw [ht, hm, chars_appendL]
      simp
      rfl

theorem pagesTailOk_iff (t : String) :
    pagesTailOk t = true ↔ ∃ body e, e ∈ pageExts ∧ body ≠ [] ∧
      chars t = body ++ chars e := by
  rw [pagesTailOk]
  simp only [List.any_eq_true, Bool.and_eq_true, decide_eq_true_eq]
  constructor
  · rintro ⟨e, he, hew, hlen⟩
    rw [endsWith_iff] at hew
    obtain ⟨p, hp⟩ := hew
    refine ⟨p, e, he, ?_, hp⟩
    intro hnil
    subst hnil
    rw [hp] at hlen
    simp at hlen
  · rintro ⟨body, e, he, hb, ht⟩
    refine ⟨e, he, ?_, ?_⟩
    · rw [endsWith_iff]
      exact ⟨body, ht⟩
    · rw [ht]
      have : 1 ≤ body.length := by
        cases body with
        | nil => exact absurd rfl hb
        | cons x xs => simp
      simp [List.length_append]
      omega

theorem routeRegexApp_iff (s : String) :
    routeRegexApp s = true ↔ AppRouteShape s := by
  rw [routeRegexApp, AppRouteShape]
  simp only [Bool.or_eq_true, Bool.and_eq_true]
  rw [isPrefixL_iff, boundaryScan_iff]
  constructor
  · rintro (⟨⟨r, hr⟩, ht⟩ | ⟨l1, l2, he, hp, ht⟩)
    · rw [appTailOk_iff] at ht
      obtain ⟨mid, e, hee, hmm, hte⟩ := ht
      rw [chars_ofChars] at hte
      have hd : (chars s).drop 4 = r := by
        rw [hr]
        exact List.drop_left (chars "app/") r
      refine ⟨[], mid, e, hee, .inl rfl, hmm, ?_⟩
      rw [hr, ← hd, hte]
      simp
    · rw [isPrefixL_iff] at hp
      obtain ⟨r2, hr2⟩ := hp
      rw [appTailOk_iff] at ht
      obtain ⟨mid, e, hee, hmm, hte⟩ := ht
      rw [chars_ofChars] at hte
      have hd : l2.drop (chars "app/").length = r2 := by
        rw [hr2]
        exact List.drop_left _ _
      rw [hd] at hte
      refine ⟨l1 ++ ['/'], mid, e, hee, .inr ⟨l1, rfl⟩, hmm, ?_⟩
      rw [he, hr2, hte]
      simp
  · rintro ⟨pre, mid, e, hee, hpre, hmm, hs⟩
    rcases hpre with hpre | ⟨p2, hp2⟩
    · subst hpre
      refine .inl ⟨⟨mid ++ chars e, by simpa using hs⟩, ?_⟩
      rw [appTailOk_iff]
      refine ⟨mid, e, hee, hmm, ?_⟩
      rw [chars_ofChars]
      have : chars s = chars "app/" ++ (mid ++ chars e) := by simpa using hs
      rw [this]
      exact List.drop_left (chars "app/") (mid ++ chars e)
    · subst hp2
      refine .inr ⟨p2, chars "app/" ++ mid ++ chars e, ?_, ?_, ?_⟩
      · rw [hs]
        simp
      · rw [isPrefixL_iff]
        exact ⟨mid ++ chars e, by simp⟩
      · rw [appTailOk_iff]
        refine ⟨mid, e, hee, hmm, ?_⟩
        rw [chars_ofChars]
        have : chars "app/" ++ mid ++ chars e =
            chars "app/" ++ (mid ++ chars e) := by simp
        rw [this]
        exact List.drop_left _ _

theorem routeRegexPages_iff (s : String) :
    routeRegexPages s = true ↔ PagesRouteShape s := by
  rw [routeRegexPages, PagesRouteShape]
  simp only [Bool.or_eq_true, Bool.and_eq_true]
  rw [isPrefixL_iff, boundaryScan_iff]
  constructor
  · rintro (⟨⟨r, hr⟩, ht⟩ | ⟨l1, l2, he, hp, ht⟩)
    · rw [pagesTailOk_iff] at ht
      obtain ⟨body, e, hee, hb, hte⟩ := ht
      rw [chars_ofChars] at hte
      have hd : (chars s).drop 6 = r := by
        rw [hr]
        exact List.drop_left (chars "pages/") r
      refine ⟨[], body, e, hee, .inl rfl, hb, ?_⟩
      rw [hr, ← hd, hte]
      simp
    · rw [isPrefixL_iff] at hp
      obtain ⟨r2, hr2⟩ := hp
      rw [pagesTailOk_iff] at ht
      obtain ⟨body, e, hee, hb, hte⟩ := ht
      rw [chars_ofChars] at hte
      have hd : l2.drop (chars "pages/").length = r2 := by
        rw [hr2]
        exact List.drop_left _ _
      rw [hd] at hte
      refine ⟨l1 ++ ['/'], body, e, hee, .inr ⟨l1, rfl⟩, hb, ?_⟩
      rw [he, hr2, hte]
      simp
  · rintro ⟨pre, body, e, hee, hpre, hb, hs⟩
    rcases hpre with hpre | ⟨p2, hp2⟩
    · subst hpre
      refine .inl ⟨⟨body ++ chars e, by simpa using hs⟩, ?_⟩
      rw [pagesTailOk_iff]
      refine ⟨body, e, hee, hb, ?_⟩
      rw [chars_ofChars]
      have : chars s = chars "pages/" ++ (body ++ chars e) := by simpa using hs
      rw [this]
      exact List.drop_left (chars "pages/") (body ++ chars e)
    · subst hp2
      refine .inr ⟨p2, chars "pages/" ++ body ++ chars e, ?_, ?_, ?_⟩
      · rw [hs]
        simp
      · rw [isPrefixL_iff]
        exact ⟨body ++ chars e, by simp⟩
      · rw [pagesTailOk_iff]
        refine ⟨body, e, hee, hb, ?_⟩
        rw [chars_ofChars]
        have : chars "pages/" ++ body ++ chars e =
            chars "pages/" ++ (body ++ chars e) := by simp
        rw [this]
        exact List.drop_left _ _

/-- **C9** (amended): node typing assigns `route` exactly to paths in the
app route-entry language or the pages language, except that
underscore-prefixed files in a pages-style path are typed `module`;
`style` exactly to non-route-shaped paths with a style extension; and
`module` to everything else. -/
theorem c9_node_typing (rel : String) (hne : rel ≠ "__external__") :
    (nodeTypeFromPath rel = .route ↔
      ((AppRouteShape rel ∨ PagesRouteShape rel) ∧ ¬PagesUnderscore rel)) ∧
    (nodeTypeFromPath rel = .style ↔
      (¬(AppRouteShape rel ∨ PagesRouteShape rel) ∧
        STYLE_EXTENSIONS.contains (extnameP rel) = true)) ∧
    (nodeTypeFromPath rel = .module ↔
      (((AppRouteShape rel ∨ PagesRouteShape rel) ∧ PagesUnderscore rel) ∨
       (¬(AppRouteShape rel ∨ PagesRouteShape rel) ∧
         STYLE_EXTENSIONS.contains (extnameP rel) = false))) := by
  have hiff : (routeRegexApp rel || routeRegexPages rel) = true ↔
      (AppRouteShape rel ∨ PagesRouteShape rel) := by
    rw [Bool.or_eq_true, routeRegexApp_iff, routeRegexPages_iff]
  rw [nodeTypeFromPath, if_neg hne]
  by_cases hr : (routeRegexApp rel || routeRegexPages rel) = true
  · rw [if_pos hr]
    have hsh := hiff.mp hr
    by_cases hpp : (jsIncludes rel "/pages/" || jsStartsWith rel "pages/") = true
    · rw [if_pos hpp]
      by_cases hu : jsStartsWith (basenameP rel) "_" = true
      · rw [if_pos hu]
        have hPU : PagesUnderscore rel :=
          ⟨(Bool.or_eq_true _ _).mp hpp, hu⟩
        refine ⟨?_, ?_, ?_⟩ <;> simp [hsh, hPU]
      · rw [if_neg hu]
        have hnPU : ¬PagesUnderscore rel := fun h => hu h.2
        refine ⟨?_, ?_, ?_⟩ <;> simp [hsh, hnPU]
    · rw [if_neg hpp]
      have hnPU : ¬PagesUnderscore rel := fun h =>
        hpp ((Bool.or_eq_true _ _).mpr h.1)
      refine ⟨?_, ?_, ?_⟩ <;> simp [hsh, hnPU]
  · rw [if_neg hr]
    have hnsh : ¬(AppRouteShape rel ∨ PagesRouteShape rel) := fun h =>
      hr (hiff.mpr h)
    by_cases hst : STYLE_EXTENSIONS.contains (extnameP rel) = true
    · rw [if_pos hst]
      have hstm : extnameP rel ∈ STYLE_EXTENSIONS := by simpa using hst
      refine ⟨?_, ?_, ?_⟩ <;> simp [hnsh, hst, hstm]
    · rw [if_neg hst]
      have hstm : extnameP rel ∉ STYLE_EXTENSIONS := by simpa using hst
      refine ⟨?_, ?_, ?_⟩ <;> simp [hnsh, hst, hstm]

/-- Witness for the amended C9: `pages/index.tsx` is a pages-language path
without the underscore exception, and is typed `route`. -/
theorem c9_node_typing_witness :
    (AppRouteShape "pages/index.tsx" ∨ PagesRouteShape "pages/index.tsx") ∧
    ¬PagesUnderscore "pages/index.tsx" :=
  ((c9_node_typing "pages/index.tsx" (by decide)).1).mp (by decide)

/-! ### Pipe-splitting and key-shape disjointness (toward the
include-external claim) -/

theorem pipeFree_of_b {s : String} (h : pipeFreeB s = true) : PipeFree s := by
  rw [pipeFreeB, Bool.not_eq_true'] at h
  intro hm
  have hc : (chars s).contains '|' = true := by
    rw [List.contains_eq_any_beq, List.any_eq_true]
    exact ⟨'|', hm, by simp⟩
  rw [hc] at h
  cases h

theorem pipeFree_append {a b : String} (ha : PipeFree a) (hb : PipeFree b) :
    PipeFree (a ++ b) := by
  rw [PipeFree, chars_appendL]
  intro hm
  rcases List.mem_append.mp hm with h | h
  · exact ha h
  · exact hb h

theorem pipe_split_chars : ∀ (u u' v v' : List Char), '|' ∉ u → '|' ∉ u' →
    u ++ '|' :: v = u' ++ '|' :: v' → u = u' ∧ v = v' := by
  intro u
  induction u with
  | nil =>
    intro u' v v' _ hu' h
    cases u' with
    | nil =>
      injection h with _ h2
      exact ⟨rfl, h2⟩
    | cons c cs =>
      injection h with h1 h2
      rw [← h1] at hu'
      exact absurd (List.mem_cons_self _ _) hu'
  | cons c cs ih =>
    intro u' v v' hu hu' h
    cases u' with
    | nil =>
      injection h with h1 h2
      rw [h1] at hu
      exact absurd (List.mem_cons_self _ _) hu
    | cons d ds =>
      injection h with h1 h2
      obtain ⟨e1, e2⟩ := ih ds v v' (fun hm => hu (List.mem_cons_of_mem _ hm))
        (fun hm => hu' (List.mem_cons_of_mem _ hm)) h2
      exact ⟨by rw [h1, e1], e2⟩

/-- If a key of in-tree shape (pipe-free source, then pipe, then pipe-free
target, then pipe, then anything) coincides with an external key, the
target component is the sentinel string. -/
theorem second_comp_external {src tgt r a b : String} (hsrc : PipeFree src)
    (htgt : PipeFree tgt) (hpa : PipeFree a)
    (h : src ++ "|" ++ tgt ++ "|" ++ r = a ++ "|__external__|external|" ++ b) :
    tgt = "__external__" := by
  have hc := congrArg chars h
  simp only [chars_appendL] at hc
  have h1 : chars "|" = ['|'] := by decide
  have h2 : chars "|__external__|external|" =
      '|' :: (chars "__external__" ++ '|' :: (chars "external" ++ ['|'])) := by
    decide
  rw [h1, h2] at hc
  simp only [List.append_assoc, List.cons_append, List.singleton_append] at hc
  obtain ⟨_, e2⟩ := pipe_split_chars _ _ _ _ hsrc hpa hc
  have hext : ('|' : Char) ∉ chars "__external__" := by decide
  obtain ⟨e3, _⟩ := pipe_split_chars _ _ _ _ htgt hext e2
  exact chars_inj e3

theorem intree_key_not_ext {src tgt r : String} (hsrc : PipeFree src)
    (htgt : PipeFree tgt) (hne : tgt ≠ "__external__") :
    ¬ExtKeyShape (src ++ "|" ++ tgt ++ "|" ++ r) := by
  rintro ⟨a, b, hpa, hk⟩
  exact hne (second_comp_external hsrc htgt hpa hk)

theorem symbolId_ne_external (a b : String) : a ++ "::" ++ b ≠ "__external__" := by
  intro h
  have hm : (':' : Char) ∈ chars (a ++ "::" ++ b) := by
    rw [chars_appendL, chars_appendL]
    exact List.mem_append.mpr (.inl (List.mem_append.mpr (.inr (by decide))))
  rw [h] at hm
  exact absurd hm (by decide)

theorem supported_ne_external {s : String} (h : isSupportedFile s = true) :
    s ≠ "__external__" := by
  intro he
  rw [he] at h
  exact absurd h (by decide)

theorem contains_false_of_not_mem {l : List String} {k : String} (h : k ∉ l) :
    l.contains k = false := by
  cases hc : l.contains k
  · rfl
  · exact absurd (mem_of_contains_true hc) h

theorem simKeys_contains {t f : ScanSt}
    (hiff : ∀ k, ¬ExtKeyShape k → (k ∈ t.edgeKeys ↔ k ∈ f.edgeKeys))
    {k : String} (hk : ¬ExtKeyShape k) :
    t.edgeKeys.contains k = f.edgeKeys.contains k := by
  by_cases hm : k ∈ t.edgeKeys
  · rw [contains_true_of_mem hm, contains_true_of_mem ((hiff k hk).mp hm)]
  · rw [contains_false_of_not_mem hm,
      contains_false_of_not_mem (fun h2 => hm ((hiff k hk).mpr h2))]

/-! ### Filtering the sentinel out of the node map commutes with the
scan's node updates -/

theorem nodesHas_filter (ns : List GraphNode) (k : String)
    (hk : k ≠ "__external__") :
    nodesHas (ns.filter (fun n => decide (n.id ≠ "__external__"))) k =
      nodesHas ns k := by
  induction ns with
  | nil => rfl
  | cons y ys ih =>
    by_cases hy : y.id = "__external__"
    · have h1 : (decide (y.id ≠ "__external__")) = false := by simp [hy]
      have h2 : (decide (y.id = k)) = false := by
        simp only [decide_eq_false_iff_not]
        intro he
        exact hk (he ▸ hy)
      simp only [nodesHas, List.filter_cons, h1, Bool.false_eq_true, if_false,
        List.any_cons, h2, Bool.false_or]
      exact ih
    · have h1 : (decide (y.id ≠ "__external__")) = true := by simp [hy]
      simp only [nodesHas, List.filter_cons, h1, if_true, List.any_cons]
      simp only [nodesHas] at ih
      rw [ih]

theorem filter_nodesSet (ns : List GraphNode) (x : GraphNode)
    (hx : x.id ≠ "__external__") :
    (nodesSet ns x).filter (fun n => decide (n.id ≠ "__external__")) =
      nodesSet (ns.filter (fun n => decide (n.id ≠ "__external__"))) x := by
  have hxd : (decide (x.id ≠ "__external__")) = true := by simp [hx]
  induction ns with
  | nil => simp [nodesSet, List.filter_cons, hx]
  | cons y ys ih =>
    by_cases hy : y.id = x.id
    · have hyid : (decide (y.id ≠ "__external__")) = true := by
        simp [hy ▸ hx]
      simp only [nodesSet, if_pos hy, List.filter_cons, hyid, hxd, if_true]
    · by_cases hy2 : y.id = "__external__"
      · have h1 : (decide (y.id ≠ "__external__")) = false := by simp [hy2]
        simp only [nodesSet, if_neg hy, List.filter_cons, h1, Bool.false_eq_true,
          if_false]
        exact ih
      · have h1 : (decide (y.id ≠ "__external__")) = true := by simp [hy2]
        simp only [nodesSet, if_neg hy, List.filter_cons, h1, if_true]
        rw [ih]

theorem filter_nodesSet_ext (ns : List GraphNode) :
    (nodesSet ns externalNode).filter (fun n => decide (n.id ≠ "__external__")) =
      ns.filter (fun n => decide (n.id ≠ "__external__")) := by
  have hxd : (decide (externalNode.id ≠ "__external__")) = false := by decide
  induction ns with
  | nil => decide
  | cons y ys ih =>
    by_cases hy : y.id = externalNode.id
    · have h1 : (decide (y.id ≠ "__external__")) = false := by
        simp only [decide_eq_false_iff_not, not_not]
        exact hy
      simp only [nodesSet, if_pos hy, List.filter_cons, hxd, h1,
        Bool.false_eq_true, if_false]
    · have h1 : (decide (y.id ≠ "__external__")) = true := by
        simp only [decide_eq_true_eq]
        exact hy
      simp only [nodesSet, if_neg hy, List.filter_cons, h1, if_true, ih]

/-! ### Structural steps preserving the lockstep relation -/

theorem simRel_refl {st : ScanSt} (h : NoSentinel st) : SimRel st st := by
  obtain ⟨h1, h2⟩ := h
  refine ⟨?_, ?_, fun k _ => Iff.rfl, rfl, rfl, rfl, rfl, rfl⟩
  · symm
    rw [List.filter_eq_self]
    intro n hnn
    simp [h1 n hnn]
  · symm
    rw [List.filter_eq_self]
    intro e hee
    simp [h2 e hee]

theorem simRel_count {t f : ScanSt} (h : SimRel t f) :
    SimRel { t with externalCount := t.externalCount + 1 }
      { f with externalCount := f.externalCount + 1 } := by
  obtain ⟨hn, hedg, hkeys, hig, hfp, htf, hic, hxc⟩ := h
  refine ⟨hn, hedg, hkeys, hig, hfp, htf, hic, ?_⟩
  show f.externalCount + 1 = t.externalCount + 1
  omega

theorem simRel_push {t f : ScanSt} (h : SimRel t f) {e : GraphEdge} {k : String}
    (_hk : ¬ExtKeyShape k) (he : e.type ≠ EdgeType.external) :
    SimRel { t with edges := t.edges ++ [e], edgeKeys := t.edgeKeys ++ [k] }
      { f with edges := f.edges ++ [e], edgeKeys := f.edgeKeys ++ [k] } := by
  obtain ⟨hn, hedg, hkeys, hig, hfp, htf, hic, hxc⟩ := h
  refine ⟨hn, ?_, ?_, hig, hfp, htf, hic, hxc⟩
  · show f.edges ++ [e] =
      (t.edges ++ [e]).filter (fun e2 => decide (e2.type ≠ EdgeType.external))
    rw [List.filter_append, hedg]
    congr 1
    simp [he]
  · intro k2 hk2
    show k2 ∈ t.edgeKeys ++ [k] ↔ k2 ∈ f.edgeKeys ++ [k]
    rw [List.mem_append, List.mem_append, hkeys k2 hk2]

theorem simRel_push_extkey {t f : ScanSt} (h : SimRel t f) {e : GraphEdge}
    {k : String} (hk : ExtKeyShape k) (he : e.type = EdgeType.external) :
    SimRel { t with edges := t.edges ++ [e], edgeKeys := t.edgeKeys ++ [k] } f := by
  obtain ⟨hn, hedg, hkeys, hig, hfp, htf, hic, hxc⟩ := h
  refine ⟨hn, ?_, ?_, hig, hfp, htf, hic, hxc⟩
  · show f.edges =
      (t.edges ++ [e]).filter (fun e2 => decide (e2.type ≠ EdgeType.external))
    rw [List.filter_append, hedg]
    have hz : ([e].filter (fun e2 => decide (e2.type ≠ EdgeType.external))) = [] := by
      simp [he]
    rw [hz, List.append_nil]
  · intro k2 hk2
    show k2 ∈ t.edgeKeys ++ [k] ↔ k2 ∈ f.edgeKeys
    rw [List.mem_append]
    constructor
    · rintro (hm | hm)
      · exact (hkeys k2 hk2).mp hm
      · rw [List.mem_singleton] at hm
        subst hm
        exact absurd hk hk2
    · intro hm
      exact .inl ((hkeys k2 hk2).mpr hm)

theorem simRel_nodesSet {t f : ScanSt} (h : SimRel t f) {x : GraphNode}
    (hx : x.id ≠ "__external__") :
    SimRel { t with nodes := nodesSet t.nodes x }
      { f with nodes := nodesSet f.nodes x } := by
  obtain ⟨hn, hedg, hkeys, hig, hfp, htf, hic, hxc⟩ := h
  refine ⟨?_, hedg, hkeys, hig, hfp, htf, hic, hxc⟩
  show nodesSet f.nodes x =
    (nodesSet t.nodes x).filter (fun n => decide (n.id ≠ "__external__"))
  rw [hn, filter_nodesSet _ _ hx]

theorem simRel_nodesSet_ext {t f : ScanSt} (h : SimRel t f) :
    SimRel { t with nodes := nodesSet t.nodes externalNode } f := by
  obtain ⟨hn, hedg, hkeys, hig, hfp, htf, hic, hxc⟩ := h
  refine ⟨?_, hedg, hkeys, hig, hfp, htf, hic, hxc⟩
  show f.nodes =
    (nodesSet t.nodes externalNode).filter (fun n => decide (n.id ≠ "__external__"))
  rw [filter_nodesSet_ext]
  exact hn

theorem fileLevelEdge_sim {relPath targetRel : String} {dep : Dependency}
    (hsrc : PipeFree relPath) (htgt : PipeFree targetRel)
    (hne : targetRel ≠ "__external__") (hdt : dep.type ≠ EdgeType.external)
    {t f : ScanSt} (h : SimRel t f) :
    SimRel (fileLevelEdge relPath targetRel dep t)
      (fileLevelEdge relPath targetRel dep f) := by
  have hkext : ¬ExtKeyShape (relPath ++ "|" ++ targetRel ++ "|" ++
      (if STYLE_EXTENSIONS.contains (extnameP targetRel) then EdgeType.style
        else dep.type).str ++ "|" ++ dep.statement.getD "") := by
    have hassoc : relPath ++ "|" ++ targetRel ++ "|" ++
        (if STYLE_EXTENSIONS.contains (extnameP targetRel) then EdgeType.style
          else dep.type).str ++ "|" ++ dep.statement.getD "" =
        relPath ++ "|" ++ targetRel ++ "|" ++
        ((if STYLE_EXTENSIONS.contains (extnameP targetRel) then EdgeType.style
          else dep.type).str ++ "|" ++ dep.statement.getD "") := by
      simp only [String.append_assoc]
    rw [hassoc]
    exact intree_key_not_ext hsrc htgt hne
  have hcc := simKeys_contains h.2.2.1 hkext
  have het : (if STYLE_EXTENSIONS.contains (extnameP targetRel) then
      EdgeType.style else dep.type) ≠ EdgeType.external := by
    split
    · intro hcon
      cases hcon
    · exact hdt
  simp only [fileLevelEdge]
  generalize hET : (if STYLE_EXTENSIONS.contains (extnameP targetRel) then
      EdgeType.style else dep.type) = et
  rw [hET] at hkext hcc het
  by_cases hc : t.edgeKeys.contains (relPath ++ "|" ++ targetRel ++ "|" ++
      et.str ++ "|" ++ dep.statement.getD "") = true
  · have hcf : f.edgeKeys.contains (relPath ++ "|" ++ targetRel ++ "|" ++
        et.str ++ "|" ++ dep.statement.getD "") = true := by
      rw [← hcc]
      exact hc
    rw [if_pos hc, if_pos hcf]
    exact h
  · have hcf : ¬f.edgeKeys.contains (relPath ++ "|" ++ targetRel ++ "|" ++
        et.str ++ "|" ++ dep.statement.getD "") = true := by
      rw [← hcc]
      exact hc
    rw [if_neg hc, if_neg hcf]
    exact simRel_push h hkext het

theorem retargetFold_sim {relPath targetRel : String} {dep : Dependency}
    {tsyms : List (String × SymbolInfo)}
    (hsrc : PipeFree relPath) (htgt : PipeFree targetRel)
    (hdt : dep.type ≠ EdgeType.external) :
    ∀ (bs : List ImportBinding) (t f : ScanSt) (c : Bool),
      (∀ b ∈ bs, pipeFreeB b.imported = true) → SimRel t f →
      SimRel (retargetFold relPath targetRel dep tsyms t c bs).1
          (retargetFold relPath targetRel dep tsyms f c bs).1 ∧
      (retargetFold relPath targetRel dep tsyms t c bs).2 =
        (retargetFold relPath targetRel dep tsyms f c bs).2 := by
  intro bs
  induction bs with
  | nil =>
    intro t f c _ h
    exact ⟨h, rfl⟩
  | cons b bs ih =>
    intro t f c hbs h
    have hb : pipeFreeB b.imported = true := hbs b (List.mem_cons_self _ _)
    have hbs2 : ∀ x ∈ bs, pipeFreeB x.imported = true :=
      fun x hx => hbs x (List.mem_cons_of_mem _ hx)
    by_cases hkind : b.kind = BindKind.namespaceK
    · simp only [retargetFold, if_pos hkind]
      exact ih t f c hbs2 h
    · simp only [retargetFold, if_neg hkind]
      have hname : PipeFree (if b.kind = BindKind.default then "default"
          else b.imported) := by
        split
        · exact pipeFree_of_b (by decide)
        · exact pipeFree_of_b hb
      generalize hnm : (if b.kind = BindKind.default then "default"
        else b.imported) = nm
      rw [hnm] at hname
      cases hg : aGet tsyms nm with
      | none =>
        simp only [hg]
        exact ih t f c hbs2 h
      | some s =>
        simp only [hg]
        have hkext : ¬ExtKeyShape (relPath ++ "|" ++ (targetRel ++ "::" ++ nm) ++
            "|" ++ dep.type.str ++ "|" ++ dep.statement.getD "") := by
          have hassoc : relPath ++ "|" ++ (targetRel ++ "::" ++ nm) ++ "|" ++
              dep.type.str ++ "|" ++ dep.statement.getD "" =
              relPath ++ "|" ++ (targetRel ++ "::" ++ nm) ++ "|" ++
              (dep.type.str ++ "|" ++ dep.statement.getD "") := by
            simp only [String.append_assoc]
          rw [hassoc]
          exact intree_key_not_ext hsrc
            (pipeFree_append (pipeFree_append htgt (pipeFree_of_b (by decide)))
              hname)
            (symbolId_ne_external _ _)
        have hcc := simKeys_contains h.2.2.1 hkext
        by_cases hc : t.edgeKeys.contains (relPath ++ "|" ++
            (targetRel ++ "::" ++ nm) ++ "|" ++ dep.type.str ++ "|" ++
            dep.statement.getD "") = true
        · have hcf : f.edgeKeys.contains (relPath ++ "|" ++
              (targetRel ++ "::" ++ nm) ++ "|" ++ dep.type.str ++ "|" ++
              dep.statement.getD "") = true := by
            rw [← hcc]
            exact hc
          rw [if_pos hc, if_pos hcf]
          exact ih t f c hbs2 h
        · have hcf : ¬f.edgeKeys.contains (relPath ++ "|" ++
              (targetRel ++ "::" ++ nm) ++ "|" ++ dep.type.str ++ "|" ++
              dep.statement.getD "") = true := by
            rw [← hcc]
            exact hc
          rw [if_neg hc, if_neg hcf]
          exact ih _ _ true hbs2 (simRel_push h hkext hdt)

/-! ### Extracted dependencies are never external-typed -/

theorem depsOfStmt_type (s : Stmt) (d : Dependency) (hd : d ∈ depsOfStmt s) :
    d.type ≠ EdgeType.external := by
  cases s with
  | topDecl d2 => simp [depsOfStmt] at hd
  | nestedDecl d2 => simp [depsOfStmt] at hd
  | importDecl src specs stmt loc =>
    simp only [depsOfStmt, List.mem_singleton] at hd
    subst hd
    intro hcon
    cases hcon
  | exportAllDecl src stmt loc =>
    cases src with
    | none => simp [depsOfStmt] at hd
    | some s2 =>
      simp only [depsOfStmt, List.mem_singleton] at hd
      subst hd
      intro hcon
      cases hcon
  | exportNamedDecl decl specs src stmt loc =>
    cases src with
    | none => simp [depsOfStmt] at hd
    | some s2 =>
      simp only [depsOfStmt, List.mem_singleton] at hd
      subst hd
      intro hcon
      cases hcon
  | exportDefaultDecl decl => simp [depsOfStmt] at hd
  | callStmt callee args stmt loc =>
    cases callee with
    | importCallee =>
      simp only [depsOfStmt] at hd
      split at hd
      · rw [List.mem_singleton] at hd
        subst hd
        intro hcon
        cases hcon
      · simp at hd
    | identCallee n =>
      simp only [depsOfStmt] at hd
      split at hd
      · split at hd
        · rw [List.mem_singleton] at hd
          subst hd
          intro hcon
          cases hcon
        · simp at hd
      · simp at hd
    | otherCallee => simp [depsOfStmt] at hd
  | otherStmt => simp [depsOfStmt] at hd

theorem styleScanAux_type : ∀ (fuel : Nat) (l : List Char) (d : Dependency),
    d ∈ styleScanAux fuel l → d.type ≠ EdgeType.external := by
  intro fuel
  induction fuel with
  | zero =>
    intro l d hd
    simp [styleScanAux] at hd
  | succ n ih =>
    intro l d hd
    cases l with
    | nil => simp [styleScanAux] at hd
    | cons c rest =>
      simp only [styleScanAux] at hd
      split at hd
      · rw [List.mem_cons] at hd
        rcases hd with hd | hd
        · subst hd
          intro hcon
          cases hcon
        · exact ih _ _ hd
      · exact ih _ _ hd

theorem extract_dep_type (fp : String) (fd : FileData) (d : Dependency)
    (hd : d ∈ extractDependencies fp fd) : d.type ≠ EdgeType.external := by
  rw [extractDependencies] at hd
  rcases List.mem_append.mp hd with hd | hd
  · split at hd
    · split at hd
      · simp at hd
      · rw [List.mem_flatten] at hd
        obtain ⟨ds, hds, hdd⟩ := hd
        rw [List.mem_map] at hds
        obtain ⟨s, _, hmap⟩ := hds
        refine depsOfStmt_type s d ?_
        rw [hmap]
        exact hdd
    · simp at hd
  · split at hd
    · exact styleScanAux_type (chars fd.text).length (chars fd.text) d hd
    · simp at hd

/-! ### The dependency phase never touches `filesToParse` -/

theorem fileLevelEdge_files (relPath targetRel : String) (dep : Dependency)
    (st : ScanSt) :
    (fileLevelEdge relPath targetRel dep st).filesToParse = st.filesToParse := by
  simp only [fileLevelEdge]
  repeat' split
  all_goals rfl

theorem retargetFold_files (relPath targetRel : String) (dep : Dependency)
    (tsyms : List (String × SymbolInfo)) :
    ∀ (bs : List ImportBinding) (st : ScanSt) (c : Bool),
      (retargetFold relPath targetRel dep tsyms st c bs).1.filesToParse =
        st.filesToParse := by
  intro bs
  induction bs with
  | nil =>
    intro st c
    rfl
  | cons b bs ih =>
    intro st c
    simp only [retargetFold]
    repeat' split
    all_goals exact ih _ _

theorem processDep_files (m : Machine) (root : String) (g : ScanGranularity)
    (inc : Bool) (smap : SymbolMap) (relPath fullPath : String) (st : ScanSt)
    (dep : Dependency) :
    (processDep m root g inc smap relPath fullPath st dep).filesToParse =
      st.filesToParse := by
  simp only [processDep]
  repeat' split
  all_goals try simp only [fileLevelEdge_files, retargetFold_files]

theorem depPhaseFile_files (m : Machine) (root : String) (g : ScanGranularity)
    (inc : Bool) (smap : SymbolMap) (st : ScanSt) (fp : String) :
    (depPhaseFile m root g inc smap st fp).filesToParse = st.filesToParse := by
  simp only [depPhaseFile]
  split
  · rfl
  · split
    · rfl
    · exact foldl_preserve (fun s => s.filesToParse = st.filesToParse) _ _ _
        (fun s2 dep _ h2 => (processDep_files m root g inc smap
          (relativeAbs root fp) fp s2 dep).trans h2) rfl

theorem depPhase_files (m : Machine) (root : String) (g : ScanGranularity)
    (inc : Bool) (smap : SymbolMap) (files : List String) (st : ScanSt) :
    (depPhase m root g inc smap files st).filesToParse = st.filesToParse := by
  exact foldl_preserve (fun s => s.filesToParse = st.filesToParse) _ files st
    (fun s2 fp _ h2 => (depPhaseFile_files m root g inc smap s2 fp).trans h2) rfl

theorem foldIgnored_files (st : ScanSt) :
    (foldIgnored st).filesToParse = st.filesToParse := by
  rw [foldIgnored]
  refine foldl_preserve (fun s => s.filesToParse = st.filesToParse) _
    st.ignoredNodes st ?_ rfl
  intro s2 n hn h2
  exact h2

theorem addSymbolEntry_files (relPath : String)
    (acc : ScanSt × List (String × SymbolInfo)) (s : SymbolInfo) :
    (addSymbolEntry relPath acc s).1.filesToParse = acc.1.filesToParse := by
  obtain ⟨st, entry⟩ := acc
  simp only [addSymbolEntry]
  repeat' split
  all_goals rfl

theorem symbolPhase_files (m : Machine) (root : String) (files : List String)
    (st : ScanSt) :
    (symbolPhase m root files st).1.filesToParse = st.filesToParse := by
  refine foldl_preserve (fun p : ScanSt × SymbolMap =>
    p.1.filesToParse = st.filesToParse) _ files (st, []) ?_ rfl
  intro p fp _ hp
  simp only [symbolPhaseFile]
  repeat' split
  all_goals first
    | exact hp
    | exact foldl_preserve (fun q : ScanSt × List (String × SymbolInfo) =>
        q.1.filesToParse = st.filesToParse) _ _ _
        (fun q s2 _ hq => (addSymbolEntry_files _ q s2).trans hq) hp

/-! ### A paired fold lemma for the lockstep relation -/

theorem foldl_sim {α : Type} (R : ScanSt → ScanSt → Prop)
    (ft ff : ScanSt → α → ScanSt) :
    ∀ (l : List α) (t f : ScanSt),
      (∀ t2 f2 a, a ∈ l → R t2 f2 → R (ft t2 a) (ff f2 a)) → R t f →
      R (l.foldl ft t) (l.foldl ff f) := by
  intro l
  induction l with
  | nil => exact fun t f _ h => h
  | cons a as ih =>
    intro t f hstep h
    rw [List.foldl_cons, List.foldl_cons]
    exact ih _ _ (fun t2 f2 b hb => hstep t2 f2 b (List.mem_cons_of_mem _ hb))
      (hstep t f a (List.mem_cons_self _ _) h)

/-! ### One dependency record in lockstep -/

theorem simRel_keypush_ext {s1 f1 : ScanSt} (h2 : SimRel s1 f1)
    (relPath spec : String) (hsrc : PipeFree relPath) (e : GraphEdge)
    (he : e.type = EdgeType.external) :
    SimRel (if s1.edgeKeys.contains (relPath ++ "|__external__|external|" ++ spec)
        then s1
        else { s1 with
          edgeKeys := s1.edgeKeys ++
            [relPath ++ "|__external__|external|" ++ spec],
          edges := s1.edges ++ [e] }) f1 := by
  split
  · exact h2
  · exact simRel_push_extkey h2 ⟨relPath, spec, hsrc, rfl⟩ he

theorem processDep_sim (m : Machine) (root : String) (g : ScanGranularity)
    (smap : SymbolMap) (relPath fullPath : String) (dep : Dependency)
    (hsrc : PipeFree relPath)
    (hcd : cleanDepB m root fullPath dep = true)
    (hdt : dep.type ≠ EdgeType.external)
    {t f : ScanSt} (h : SimRel t f) :
    SimRel (processDep m root g true smap relPath fullPath t dep)
        (processDep m root g false smap relPath fullPath f dep) := by
  rw [cleanDepB, Bool.and_eq_true] at hcd
  obtain ⟨hbinds, hres⟩ := hcd
  simp only [processDep]
  cases hr : resolveImport m root fullPath dep.specifier with
  | none =>
    simp only [hr]
    exact h
  | some r =>
    simp only [hr]
    simp only [hr] at hres
    by_cases hx : r.external = true
    · rw [if_pos hx, if_pos hx]
      rw [if_neg (show ¬¬True from fun h2 => h2 trivial)]
      try rw [if_pos (show ¬False from fun h2 => h2.elim)]
      have h1 : SimRel { t with externalCount := t.externalCount + 1 }
          { f with externalCount := f.externalCount + 1 } := simRel_count h
      have h2 : SimRel
          (if nodesHas t.nodes "__external__" = true then
            { t with externalCount := t.externalCount + 1 }
          else
            { t with
                nodes := nodesSet t.nodes externalNode,
                externalCount := t.externalCount + 1 })
          { f with externalCount := f.externalCount + 1 } := by
        split
        · exact h1
        · exact simRel_nodesSet_ext h1
      exact simRel_keypush_ext h2 relPath dep.specifier hsrc _ rfl
    · rw [if_neg hx, if_neg hx]
      cases hrp : r.resolved with
      | none =>
        simp only [hrp]
        exact h
      | some rp =>
        simp only [hrp]
        simp only [hrp] at hres
        rw [Bool.and_eq_true] at hres
        obtain ⟨hpf, hne0⟩ := hres
        have htgt : PipeFree (relativeAbs root rp) := pipeFree_of_b hpf
        have hne : relativeAbs root rp ≠ "__external__" := by
          rw [Bool.not_eq_true'] at hne0
          exact of_decide_eq_false hne0
        have hnn : nodesHas f.nodes (relativeAbs root rp) =
            nodesHas t.nodes (relativeAbs root rp) := by
          rw [h.1, nodesHas_filter _ _ hne]
        have h2 : SimRel
            (if nodesHas t.nodes (relativeAbs root rp) then t
              else { t with
                      nodes := nodesSet t.nodes
                        { id := relativeAbs root rp,
                          path := relativeAbs root rp,
                          label := basenameP (relativeAbs root rp),
                          type := nodeTypeFromPath (relativeAbs root rp) } })
            (if nodesHas f.nodes (relativeAbs root rp) then f
              else { f with
                      nodes := nodesSet f.nodes
                        { id := relativeAbs root rp,
                          path := relativeAbs root rp,
                          label := basenameP (relativeAbs root rp),
                          type := nodeTypeFromPath (relativeAbs root rp) } }) := by
          by_cases hv : nodesHas t.nodes (relativeAbs root rp) = true
          · rw [if_pos hv, if_pos (by rw [hnn]; exact hv)]
            exact h
          · rw [if_neg hv, if_neg (by rw [hnn]; exact hv)]
            exact simRel_nodesSet h hne
        revert h2
        generalize (if nodesHas t.nodes (relativeAbs root rp) = true then t
            else { t with
                    nodes := nodesSet t.nodes
                      { id := relativeAbs root rp,
                        path := relativeAbs root rp,
                        label := basenameP (relativeAbs root rp),
                        type := nodeTypeFromPath (relativeAbs root rp) } }) = t2
        generalize (if nodesHas f.nodes (relativeAbs root rp) = true then f
            else { f with
                    nodes := nodesSet f.nodes
                      { id := relativeAbs root rp,
                        path := relativeAbs root rp,
                        label := basenameP (relativeAbs root rp),
                        type := nodeTypeFromPath (relativeAbs root rp) } }) = f2
        intro h2
        cases g with
        | file =>
          cases hdi : dep.imports with
          | none => exact fileLevelEdge_sim hsrc htgt hne hdt h2
          | some binds => exact fileLevelEdge_sim hsrc htgt hne hdt h2
        | symbol =>
          cases hdi : dep.imports with
          | none => exact fileLevelEdge_sim hsrc htgt hne hdt h2
          | some binds =>
            simp only []
            have hball : ∀ b ∈ binds, pipeFreeB b.imported = true := by
              simp only [hdi] at hbinds
              rw [List.all_eq_true] at hbinds
              exact hbinds
            by_cases hbl : binds.length ≠ 0
            · rw [if_pos hbl, if_pos hbl]
              cases hag : aGet smap (relativeAbs root rp) with
              | none =>
                simp only [hag]
                exact fileLevelEdge_sim hsrc htgt hne hdt h2
              | some tsyms =>
                simp only [hag]
                obtain ⟨hsim, hflag⟩ := @retargetFold_sim relPath
                  (relativeAbs root rp) dep tsyms hsrc htgt hdt binds
                  t2 f2 false hball h2
                by_cases hpt : (retargetFold relPath (relativeAbs root rp) dep
                    tsyms t2 false binds).2 = true
                · rw [if_pos hpt, if_pos (by rw [← hflag]; exact hpt)]
                  exact hsim
                · rw [if_neg hpt, if_neg (by rw [← hflag]; exact hpt)]
                  exact fileLevelEdge_sim hsrc htgt hne hdt hsim
            · rw [if_neg hbl, if_neg hbl]
              exact fileLevelEdge_sim hsrc htgt hne hdt h2

theorem depPhaseFile_sim (m : Machine) (root : String) (g : ScanGranularity)
    (smap : SymbolMap) (fullPath : String)
    (hcf : cleanFileB m root fullPath = true)
    {t f : ScanSt} (h : SimRel t f) :
    SimRel (depPhaseFile m root g true smap t fullPath)
        (depPhaseFile m root g false smap f fullPath) := by
  rw [cleanFileB, Bool.and_eq_true] at hcf
  obtain ⟨hpf, hrest⟩ := hcf
  simp only [depPhaseFile]
  cases hrd : readData m fullPath with
  | none =>
    simp only [hrd]
    exact h
  | some fd =>
    simp only [hrd]
    simp only [hrd] at hrest
    rw [Bool.and_eq_true] at hrest
    obtain ⟨hsym, hdeps⟩ := hrest
    by_cases hft : fd.text = ""
    · rw [if_pos hft, if_pos hft]
      exact h
    · rw [if_neg hft, if_neg hft]
      refine foldl_sim SimRel _ _ (extractDependencies fullPath fd) t f ?_ h
      intro t2 f2 dep hdep h2
      have hc : cleanDepB m root fullPath dep = true := by
        rw [List.all_eq_true] at hdeps
        exact hdeps dep hdep
      exact processDep_sim m root g smap (relativeAbs root fullPath) fullPath dep
        (pipeFree_of_b hpf) hc (extract_dep_type fullPath fd dep hdep) h2

theorem depPhase_sim (m : Machine) (root : String) (g : ScanGranularity)
    (smap : SymbolMap) (files : List String)
    (hclean : ∀ fp ∈ files, cleanFileB m root fp = true)
    {t f : ScanSt} (h : SimRel t f) :
    SimRel (depPhase m root g true smap files t)
        (depPhase m root g false smap files f) := by
  rw [depPhase, depPhase]
  refine foldl_sim SimRel _ _ files t f ?_ h
  intro t2 f2 fp hfp h2
  exact depPhaseFile_sim m root g smap fp (hclean fp hfp) h2

/-! ### The dependency phase moves the counters identically in both runs,
with no side condition: `totalFiles` and `ignoredCount` are never touched,
and `externalCount` gains exactly one per external-resolving dependency
whether or not externals are shown -/

theorem fileLevelEdge_total (relPath targetRel : String) (dep : Dependency)
    (st : ScanSt) :
    (fileLevelEdge relPath targetRel dep st).totalFiles = st.totalFiles := by
  simp only [fileLevelEdge]
  repeat' split
  all_goals rfl

theorem fileLevelEdge_ignored (relPath targetRel : String) (dep : Dependency)
    (st : ScanSt) :
    (fileLevelEdge relPath targetRel dep st).ignoredCount = st.ignoredCount := by
  simp only [fileLevelEdge]
  repeat' split
  all_goals rfl

theorem fileLevelEdge_ext (relPath targetRel : String) (dep : Dependency)
    (st : ScanSt) :
    (fileLevelEdge relPath targetRel dep st).externalCount =
      st.externalCount := by
  simp only [fileLevelEdge]
  repeat' split
  all_goals rfl

theorem retargetFold_total (relPath targetRel : String) (dep : Dependency)
    (tsyms : List (String × SymbolInfo)) :
    ∀ (bs : List ImportBinding) (st : ScanSt) (c : Bool),
      (retargetFold relPath targetRel dep tsyms st c bs).1.totalFiles =
        st.totalFiles := by
  intro bs
  induction bs with
  | nil =>
    intro st c
    rfl
  | cons b bs ih =>
    intro st c
    simp only [retargetFold]
    repeat' split
    all_goals exact ih _ _

theorem retargetFold_ignored (relPath targetRel : String) (dep : Dependency)
    (tsyms : List (String × SymbolInfo)) :
    ∀ (bs : List ImportBinding) (st : ScanSt) (c : Bool),
      (retargetFold relPath targetRel dep tsyms st c bs).1.ignoredCount =
        st.ignoredCount := by
  intro bs
  induction bs with
  | nil =>
    intro st c
    rfl
  | cons b bs ih =>
    intro st c
    simp only [retargetFold]
    repeat' split
    all_goals exact ih _ _

theorem retargetFold_ext (relPath targetRel : String) (dep : Dependency)
    (tsyms : List (String × SymbolInfo)) :
    ∀ (bs : List ImportBinding) (st : ScanSt) (c : Bool),
      (retargetFold relPath targetRel dep tsyms st c bs).1.externalCount =
        st.externalCount := by
  intro bs
  induction bs with
  | nil =>
    intro st c
    rfl
  | cons b bs ih =>
    intro st c
    simp only [retargetFold]
    repeat' split
    all_goals exact ih _ _

theorem processDep_total (m : Machine) (root : String) (g : ScanGranularity)
    (inc : Bool) (smap : SymbolMap) (relPath fullPath : String) (st : ScanSt)
    (dep : Dependency) :
    (processDep m root g inc smap relPath fullPath st dep).totalFiles =
      st.totalFiles := by
  simp only [processDep]
  repeat' split
  all_goals try simp only [fileLevelEdge_total, retargetFold_total]

theorem processDep_ignored (m : Machine) (root : String) (g : ScanGranularity)
    (inc : Bool) (smap : SymbolMap) (relPath fullPath : String) (st : ScanSt)
    (dep : Dependency) :
    (processDep m root g inc smap relPath fullPath st dep).ignoredCount =
      st.ignoredCount := by
  simp only [processDep]
  repeat' split
  all_goals try simp only [fileLevelEdge_ignored, retargetFold_ignored]

theorem processDep_ext (m : Machine) (root : String) (g : ScanGranularity)
    (inc : Bool) (smap : SymbolMap) (relPath fullPath : String) (st : ScanSt)
    (dep : Dependency) :
    (processDep m root g inc smap relPath fullPath st dep).externalCount =
      st.externalCount +
        (match resolveImport m root fullPath dep.specifier with
          | some r => if r.external = true then 1 else 0
          | none => 0) := by
  cases hr : resolveImport m root fullPath dep.specifier with
  | none =>
    simp only [processDep, hr]
    exact (Nat.add_zero _).symm
  | some r =>
    simp only [processDep, hr]
    by_cases hx : r.external = true
    · rw [if_pos hx, if_pos hx]
      repeat' split
      all_goals rfl
    · rw [if_neg hx, if_neg hx]
      repeat' split
      all_goals try simp only [fileLevelEdge_ext, retargetFold_ext]
      all_goals exact (Nat.add_zero _).symm

theorem depPhaseFile_counts (m : Machine) (root : String) (g : ScanGranularity)
    (smap : SymbolMap) (fp : String) (t f : ScanSt)
    (h1 : f.totalFiles = t.totalFiles) (h2 : f.ignoredCount = t.ignoredCount)
    (h3 : f.externalCount = t.externalCount) :
    (depPhaseFile m root g false smap f fp).totalFiles =
      (depPhaseFile m root g true smap t fp).totalFiles ∧
    (depPhaseFile m root g false smap f fp).ignoredCount =
      (depPhaseFile m root g true smap t fp).ignoredCount ∧
    (depPhaseFile m root g false smap f fp).externalCount =
      (depPhaseFile m root g true smap t fp).externalCount := by
  simp only [depPhaseFile]
  cases hrd : readData m fp with
  | none =>
    simp only [hrd]
    exact ⟨h1, h2, h3⟩
  | some fd =>
    simp only [hrd]
    by_cases hft : fd.text = ""
    · rw [if_pos hft, if_pos hft]
      exact ⟨h1, h2, h3⟩
    · rw [if_neg hft, if_neg hft]
      refine foldl_sim (fun t2 f2 => f2.totalFiles = t2.totalFiles ∧
        f2.ignoredCount = t2.ignoredCount ∧
        f2.externalCount = t2.externalCount) _ _
        (extractDependencies fp fd) t f ?_ ⟨h1, h2, h3⟩
      intro t2 f2 dep hdep hk
      obtain ⟨k1, k2, k3⟩ := hk
      refine ⟨?_, ?_, ?_⟩
      · rw [processDep_total, processDep_total]
        exact k1
      · rw [processDep_ignored, processDep_ignored]
        exact k2
      · rw [processDep_ext, processDep_ext, k3]

theorem depPhase_counts (m : Machine) (root : String) (g : ScanGranularity)
    (smap : SymbolMap) (files : List String) (t f : ScanSt)
    (h1 : f.totalFiles = t.totalFiles) (h2 : f.ignoredCount = t.ignoredCount)
    (h3 : f.externalCount = t.externalCount) :
    (depPhase m root g false smap files f).totalFiles =
      (depPhase m root g true smap files t).totalFiles ∧
    (depPhase m root g false smap files f).ignoredCount =
      (depPhase m root g true smap files t).ignoredCount ∧
    (depPhase m root g false smap files f).externalCount =
      (depPhase m root g true smap files t).externalCount := by
  rw [depPhase, depPhase]
  refine foldl_sim (fun t2 f2 => f2.totalFiles = t2.totalFiles ∧
    f2.ignoredCount = t2.ignoredCount ∧ f2.externalCount = t2.externalCount)
    _ _ files t f ?_ ⟨h1, h2, h3⟩
  intro t2 f2 fp hfp hk
  obtain ⟨k1, k2, k3⟩ := hk
  exact depPhaseFile_counts m root g smap fp t2 f2 k1 k2 k3

/-! ### The state entering the dependency phase carries no sentinel -/

theorem addSymbolEntry_noSentinel (relPath : String)
    (acc : ScanSt × List (String × SymbolInfo)) (s : SymbolInfo)
    (h : NoSentinel acc.1) : NoSentinel (addSymbolEntry relPath acc s).1 := by
  obtain ⟨st, entry⟩ := acc
  obtain ⟨h1, h2⟩ := h
  have hcontains : ∀ (st2 : ScanSt), (∀ n ∈ st2.nodes, n.id ≠ "__external__") →
      (∀ e ∈ st2.edges, e.type ≠ EdgeType.external) →
      NoSentinel (if st2.edgeKeys.contains
          (relPath ++ "|" ++ (relPath ++ "::" ++ s.name) ++ "|contains") = true then
        (st2, aSet entry s.name s)
      else
        ({ st2 with
            edges := st2.edges ++
              [{ id := hashId (relPath ++ "|" ++ (relPath ++ "::" ++ s.name) ++
                   "|contains"),
                 source := relPath, target := relPath ++ "::" ++ s.name,
                 type := EdgeType.contains }],
            edgeKeys := st2.edgeKeys ++
              [relPath ++ "|" ++ (relPath ++ "::" ++ s.name) ++ "|contains"] },
          aSet entry s.name s)).1 := by
    intro st2 q1 q2
    split
    · exact ⟨q1, q2⟩
    · refine ⟨q1, ?_⟩
      intro e he2
      rcases List.mem_append.mp he2 with hm | hm
      · exact q2 e hm
      · rw [List.mem_singleton] at hm
        subst hm
        intro hcon
        cases hcon
  simp only [addSymbolEntry]
  split
  · exact hcontains st h1 h2
  · refine hcontains _ ?_ h2
    intro n hn
    rcases nodesSet_mem hn with he | he
    · subst he
      exact symbolId_ne_external relPath s.name
    · exact h1 n he

theorem symbolPhase_noSentinel (m : Machine) (root : String)
    (files : List String) (st : ScanSt) (h : NoSentinel st) :
    NoSentinel (symbolPhase m root files st).1 := by
  refine foldl_preserve (fun p : ScanSt × SymbolMap => NoSentinel p.1) _
    files (st, []) ?_ h
  intro p fp _ hp
  simp only [symbolPhaseFile]
  repeat' split
  all_goals first
    | exact hp
    | exact foldl_preserve (fun q : ScanSt × List (String × SymbolInfo) =>
        NoSentinel q.1) _ _ _
        (fun q s2 _ hq => addSymbolEntry_noSentinel _ q s2 hq) hp

theorem foldIgnored_noSentinel (st : ScanSt) (h : NoSentinel st)
    (hig : ∀ n ∈ st.ignoredNodes, n.id ≠ "__external__") :
    NoSentinel (foldIgnored st) := by
  rw [foldIgnored]
  refine foldl_preserve (fun s => NoSentinel s) _ st.ignoredNodes st ?_ h
  intro s2 n hn hs
  obtain ⟨p1, p2⟩ := hs
  refine ⟨?_, p2⟩
  intro x hx
  rcases nodesSet_mem hx with he | he
  · subst he
    exact hig _ hn
  · exact p1 x he

/-- **C10** (amended): two scans of the same machine differing only in
`includeExternal` agree unconditionally on root, totalFiles, ignoredCount
and externalCount (`externalCount` counts every external-resolving
dependency even when externals are hidden); and provided no scanned
relative path, exported symbol name, import binding name or resolved
target contains a pipe and no in-tree dependency resolves to the relative
path `__external__` (`cleanScanB`), the hidden-externals run additionally
returns exactly the shown-externals run's nodes without the
`__external__` node and its edges without the external-typed edges. -/
theorem c10_include_external_toggle (m : Machine) (o : ScanOptions)
    (rT rF : String) (stT stF : ScanSt)
    (hT : scanState m { o with includeExternal := true } = .ok (rT, stT))
    (hF : scanState m { o with includeExternal := false } = .ok (rF, stF)) :
    (rF = rT ∧ stF.totalFiles = stT.totalFiles ∧
      stF.ignoredCount = stT.ignoredCount ∧
      stF.externalCount = stT.externalCount) ∧
    (cleanScanB m (resolveAbs o.root) stT.filesToParse = true →
      stF.nodes = stT.nodes.filter (fun n => decide (n.id ≠ "__external__")) ∧
      stF.edges = stT.edges.filter
        (fun e => decide (e.type ≠ EdgeType.external))) := by
  rw [scanState] at hT hF
  simp only [] at hT hF
  by_cases hdir : statIsDir m (resolveAbs o.root) = true
  · rw [if_neg (fun hc => hc hdir)] at hT hF
    cases hw : walkEntries o.maxFiles (resolveAbs o.root)
        ((childrenAt m (resolveAbs o.root)).getD []) ""
        (combinedPatternsFor "" ALWAYS_IGNORE
          ((childrenAt m (resolveAbs o.root)).getD [])) {} with
    | error e =>
      rw [hw] at hT
      cases hT
    | ok st1 =>
      rw [hw] at hT hF
      injection hT with hT
      injection hF with hF
      rw [Prod.mk.injEq] at hT hF
      obtain ⟨hT1, hT2⟩ := hT
      obtain ⟨hF1, hF2⟩ := hF
      rw [scanTail] at hT2 hF2
      have hcounts := depPhase_counts m (resolveAbs o.root)
        (o.granularity.getD .file)
        (phasePair m (resolveAbs o.root) (o.granularity.getD .file)
          (foldIgnored st1)).2
        (foldIgnored st1).filesToParse
        (phasePair m (resolveAbs o.root) (o.granularity.getD .file)
          (foldIgnored st1)).1
        (phasePair m (resolveAbs o.root) (o.granularity.getD .file)
          (foldIgnored st1)).1
        rfl rfl rfl
      rw [hT2, hF2] at hcounts
      obtain ⟨c1, c2, c3⟩ := hcounts
      refine ⟨⟨by rw [← hT1, ← hF1], c1, c2, c3⟩, ?_⟩
      intro hclean
      have hW := walk_facts o.maxFiles (resolveAbs o.root)
        ((childrenAt m (resolveAbs o.root)).getD []) ""
        (combinedPatternsFor "" ALWAYS_IGNORE
          ((childrenAt m (resolveAbs o.root)).getD [])) {}
      rw [hw] at hW
      obtain ⟨_, _, heW, _, _, hnW, hiW, _⟩ := hW
      have hst1 : NoSentinel st1 := by
        constructor
        · intro n hn
          rcases hnW n hn with hmem | hsup
          · exact absurd hmem (List.not_mem_nil n)
          · exact supported_ne_external hsup
        · intro e hee
          rw [heW] at hee
          exact absurd hee (List.not_mem_nil e)
      have hig1 : ∀ n ∈ st1.ignoredNodes, n.id ≠ "__external__" := by
        intro n hn
        rcases hiW n hn with hmem | hsup
        · exact absurd hmem (List.not_mem_nil n)
        · exact supported_ne_external hsup
      have hfi := foldIgnored_noSentinel st1 hst1 hig1
      have hns2 : NoSentinel (phasePair m (resolveAbs o.root)
          (o.granularity.getD .file) (foldIgnored st1)).1 := by
        rw [phasePair]
        split
        · exact symbolPhase_noSentinel _ _ _ _ hfi
        · exact hfi
      have hfiles : (phasePair m (resolveAbs o.root) (o.granularity.getD .file)
          (foldIgnored st1)).1.filesToParse = (foldIgnored st1).filesToParse := by
        rw [phasePair]
        split
        · exact symbolPhase_files _ _ _ _
        · rfl
      have heq : stT.filesToParse = (foldIgnored st1).filesToParse := by
        rw [← hT2, depPhase_files, hfiles]
      rw [cleanScanB, heq, List.all_eq_true] at hclean
      have hsim := depPhase_sim m (resolveAbs o.root) (o.granularity.getD .file)
        (phasePair m (resolveAbs o.root) (o.granularity.getD .file)
          (foldIgnored st1)).2
        (foldIgnored st1).filesToParse hclean (simRel_refl hns2)
      rw [hT2, hF2] at hsim
      obtain ⟨s1, s2, _⟩ := hsim
      exact ⟨s1, s2⟩
  · rw [if_pos hdir] at hT
    cases hT

/-- Witness for the amended C10 at a concrete machine with one external
dependency: the counters agree, the cleanliness proviso holds, and the
node/edge correspondences follow. -/
theorem c10_include_external_toggle_witness :
    ∃ rT rF stT stF,
      scanState c10WMachine { c10OptionsF with includeExternal := true } =
        Except.ok (rT, stT) ∧
      scanState c10WMachine { c10OptionsF with includeExternal := false } =
        Except.ok (rF, stF) ∧
      cleanScanB c10WMachine (resolveAbs c10OptionsF.root) stT.filesToParse =
        true ∧
      ((rF = rT ∧ stF.totalFiles = stT.totalFiles ∧
        stF.ignoredCount = stT.ignoredCount ∧
        stF.externalCount = stT.externalCount) ∧
       (cleanScanB c10WMachine (resolveAbs c10OptionsF.root) stT.filesToParse =
          true →
        stF.nodes = stT.nodes.filter (fun n => decide (n.id ≠ "__external__")) ∧
        stF.edges = stT.edges.filter
          (fun e => decide (e.type ≠ EdgeType.external)))) :=
  ⟨_, _, _, _, rfl, rfl, by decide,
    c10_include_external_toggle c10WMachine c10OptionsF _ _ _ _ rfl rfl⟩

end RepoViz



